import Mathlib

/-!
# A verification development for the SMF player playlist engine

This file gives a shallow embedding, in Lean 4, of the playlist/metadata
reconciliation engine of the SMF music player (Python sources:
`src/metadata/extractor.py`, `src/database/manager.py`,
`src/playlist/manager.py`, `src/api/spotify_api.py`, and the
recommendation-loading step of `src/ui/main_frame.py`), together with
theorems settling the specification claims about it.

Modelling conventions:
* The file system is a partial map from path strings to file contents;
  `none` means the path does not name a readable file.
* Python dictionaries become Lean structures; SQLite tables become lists of
  row structures, with `REPLACE INTO` modelled as filter-out-then-append
  (SQLite deletes the conflicting row and appends the new one).
* SQLite/OS level faults (disk errors and the like) are outside the model:
  the corresponding `except sqlite3.Error` branches are never taken, so
  e.g. `insert_song` always reports success.
* Audio durations are modelled at whole-second granularity (`Nat`), which
  is faithful for every property stated here.
* Remote providers (Spotify strategies) are modelled as environment
  functions; a `none` result models a raised exception at the call site,
  which the Python code catches and treats as a failed lookup.
-/

namespace SMF

/-! ## String helpers (structural models of the Python string operations) -/

/-- Characters Python's `str.strip` removes. -/
def is_space (c : Char) : Bool :=
  c == ' ' || c == '\t' || c == '\n' || c == '\r' || c == '\x0b' || c == '\x0c'

/-- Model of Python `str.strip()`. -/
def str_trim (s : String) : String :=
  String.mk (((s.toList.dropWhile is_space).reverse.dropWhile is_space).reverse)

/-- Model of Python `str.lower()` (ASCII case folding). -/
def str_to_lower (s : String) : String :=
  String.mk (s.toList.map Char.toLower)

/-- `rev_matches post rev` holds when the reversed character list `rev`
starts with the reversed suffix `post`. -/
def rev_matches : List Char → List Char → Bool
  | [], _ => true
  | _ :: _, [] => false
  | a :: as, b :: bs => a == b && rev_matches as bs

/-- Model of Python `str.endswith`. -/
def str_ends_with (s post : String) : Bool :=
  rev_matches post.toList.reverse s.toList.reverse

/-- Model of `os.path.basename` (POSIX): the part after the last slash. -/
def basename (p : String) : String :=
  String.mk ((p.toList.reverse.takeWhile (fun c => c != '/')).reverse)

/-- Drop, from a character list, everything from its last dot on
(no change when there is no dot).  Helper for `os.path.splitext`. -/
def drop_last_ext (rest : List Char) : List Char :=
  match rest.reverse.dropWhile (fun c => c != '.') with
  | [] => rest
  | _ :: before => before.reverse

/-- Model of `os.path.splitext(os.path.basename(p))[0]`: the base name
without its extension; leading dots of the base name never start an
extension (Python's rule for dot-files). -/
def fileStem (p : String) : String :=
  let name := basename p
  let cs := name.toList
  let lead := cs.takeWhile (fun c => c == '.')
  let rest := cs.drop lead.length
  String.mk (lead ++ drop_last_ext rest)

/-! ## MetadataExtractor (`src/metadata/extractor.py`) -/

/-- The ID3 frames `extract_metadata` reads: TPE1 (artist), TIT2 (title),
TDRC (year); each frame may be absent. -/
structure FileTags where
  tpe1 : Option String
  tit2 : Option String
  tdrc : Option String
deriving Repr, DecidableEq, Inhabited

/-- Contents of a file on disk, as far as the extractor observes them.
`id3 = none` models `ID3(path)` raising (no readable tag block);
`mutagenLength` is the stream length mutagen reports, if any;
`wavDuration` is the frames/framerate duration a WAV header yields, if
readable. -/
structure FileContent where
  id3 : Option FileTags
  mutagenLength : Option Nat
  wavDuration : Option Nat
deriving Repr, DecidableEq, Inhabited

/-- The file system: a partial map from paths to file contents. -/
abbrev FS := String → Option FileContent

/-- Extracted metadata record (`{title, artist, duration, year}`). -/
structure Metadata where
  title : String
  artist : String
  duration : String
  year : String
deriving Repr, DecidableEq, Inhabited

/-- `MetadataExtractor._format_duration`: seconds to `M:SS`
(`"0:00"` when the duration is not positive). -/
def format_duration (seconds : Nat) : String :=
  if seconds = 0 then "0:00"
  else
    let minutes := seconds / 60
    let secs := seconds % 60
    toString minutes ++ ":" ++ (if secs < 10 then "0" ++ toString secs else toString secs)

/-- `MetadataExtractor._get_duration`: the mutagen stream length when
readable, else the WAV-header fallback for `.wav` files, else `0`
(a missing file makes both probes fail). -/
def get_duration (fs : FS) (path : String) : Nat :=
  match fs path with
  | none => 0
  | some f =>
    match f.mutagenLength with
    | some len => len
    | none => if str_ends_with (str_to_lower path) ".wav" then f.wavDuration.getD 0 else 0

/-- `MetadataExtractor.is_supported_audio_file`: extension allow-list from
`config.SUPPORTED_AUDIO_EXTENSIONS`. -/
def is_supported_audio_file (path : String) : Bool :=
  [".mp3", ".flac", ".wav", ".aac", ".ogg"].any
    (fun ext => str_ends_with (str_to_lower path) ext)

/-- The tag-cleaning step: truncate at the first of `, ( ) ?` and strip. -/
def cleanTag (s : String) : String :=
  str_trim (String.mk (s.toList.takeWhile
    (fun c => c != ',' && c != '(' && c != ')' && c != '?')))

/-- `MetadataExtractor.extract_metadata`: filename-stem backup title and
empty artist/year, overlaid with cleaned TPE1/TIT2 and raw TDRC when the
ID3 block parses; the duration probe runs independently of the tag parse. -/
def extract_metadata (fs : FS) (path : String) : Metadata :=
  let backup_name := fileStem path
  let duration := format_duration (get_duration fs path)
  match (fs path).bind FileContent.id3 with
  | none => { title := backup_name, artist := "", duration := duration, year := "" }
  | some tags =>
    { title := match tags.tit2 with
        | some t => cleanTag t
        | none => backup_name
      artist := match tags.tpe1 with
        | some a => cleanTag a
        | none => ""
      duration := duration
      year := tags.tdrc.getD "" }

/-! ## DatabaseManager (`src/database/manager.py`) -/

/-- A row of the `playlist` table (`path` is UNIQUE). -/
structure PlaylistRow where
  title : String
  duration : String
  artist : String
  year : String
  path : String
  timesplayed : Int
deriving Repr, DecidableEq, Inhabited

/-- A row of the `rate` table (UNIQUE on `(title, artist)`; `rating` is
nullable). -/
structure RateRow where
  title : String
  artist : String
  rating : Option Int
deriving Repr, DecidableEq, Inhabited

/-- The SQLite database: the `playlist` and `rate` tables, rows in rowid
order. -/
structure Database where
  playlist : List PlaylistRow
  rate : List RateRow
deriving Repr, DecidableEq, Inhabited

namespace DatabaseManager

/-- `DELETE FROM playlist`. -/
def clear_playlist (db : Database) : Database :=
  { db with playlist := [] }

/-- `REPLACE INTO playlist ... VALUES (?, ?, ?, ?, ?, 0)`: the conflicting
row (same `path`) is deleted and the fresh row appended, `timesplayed`
starting at 0. -/
def insert_song (db : Database) (title duration artist year path : String) : Database :=
  { db with playlist :=
      db.playlist.filter (fun r => r.path != path) ++
        [⟨title, duration, artist, year, path, 0⟩] }

/-- `SELECT ... FROM playlist WHERE path = ?` with `fetchone`. -/
def find_song_row (db : Database) (path : String) : Option PlaylistRow :=
  db.playlist.find? (fun r => r.path == path)

/-- `DatabaseManager.update_times_played`: read the current counter for
`path`, write back its successor to every matching row, and return the new
value; `0` and no change when the path has no row. -/
def update_times_played (db : Database) (path : String) : Database × Int :=
  match find_song_row db path with
  | some r =>
    let new_count := r.timesplayed + 1
    ({ db with playlist := (db.playlist.map
        (fun x => if x.path == path then { x with timesplayed := new_count } else x)) },
      new_count)
  | none => (db, 0)

/-- `DatabaseManager.get_times_played`: the stored counter, `0` when the
path has no row. -/
def get_times_played (db : Database) (path : String) : Int :=
  match find_song_row db path with
  | some r => r.timesplayed
  | none => 0

/-- `DELETE FROM playlist WHERE path = ?`. -/
def delete_song_by_path (db : Database) (path : String) : Database :=
  { db with playlist := db.playlist.filter (fun r => r.path != path) }

/-- `UPDATE playlist SET path = ? WHERE path = ?`: when the update would
collide with a distinct existing path, SQLite raises on the UNIQUE
constraint, the error is caught, and the table is left unchanged. -/
def update_song_path (db : Database) (old_path new_path : String) : Database :=
  if old_path != new_path
      && db.playlist.any (fun r => r.path == old_path)
      && db.playlist.any (fun r => r.path == new_path) then
    db
  else
    { db with playlist := (db.playlist.map
        (fun r => if r.path == old_path then { r with path := new_path } else r)) }

/-- `SELECT ... FROM rate WHERE title = ? AND artist = ?` with `fetchone`. -/
def find_rate_row (db : Database) (title artist : String) : Option RateRow :=
  db.rate.find? (fun r => r.title == title && r.artist == artist)

/-- `DatabaseManager.insert_or_update_rating`: REPLACE into `rate`; with no
explicit rating the subquery re-reads the existing rating (`NULL` when the
pair had no row). -/
def insert_or_update_rating (db : Database) (title artist : String)
    (rating : Option Int) : Database :=
  let newRating : Option Int :=
    match rating with
    | some v => some v
    | none => (find_rate_row db title artist).bind RateRow.rating
  { db with rate :=
      db.rate.filter (fun r => !(r.title == title && r.artist == artist)) ++
        [⟨title, artist, newRating⟩] }

/-- `DatabaseManager.get_rating`: the stored rating, `0` when the row is
missing or its rating is `NULL`. -/
def get_rating (db : Database) (title artist : String) : Int :=
  match (find_rate_row db title artist).bind RateRow.rating with
  | some v => v
  | none => 0

/-- `UPDATE rate SET rating = ? WHERE title = ? AND artist = ?`. -/
def update_rating (db : Database) (title artist : String) (rating : Int) : Database :=
  { db with rate := (db.rate.map
      (fun r => if r.title == title && r.artist == artist
        then { r with rating := some rating } else r)) }

/-- `SELECT path FROM playlist`. -/
def get_all_playlist_paths (db : Database) : List String :=
  db.playlist.map PlaylistRow.path

end DatabaseManager

/-! ## Songs, recommendations and the engine state
(`src/playlist/manager.py`) -/

/-- An in-memory playlist entry (the Python song dictionary). -/
structure Song where
  title : String
  artist : String
  duration : String
  year : String
  path : String
  times_played : Int
  rating : Int
deriving Repr, DecidableEq, Inhabited

/-- A recommendation dictionary as cached by the engine (the strategy
wrappers have already stamped `seed_artist_name`). -/
structure Recommendation where
  artist : String
  title : String
  preview_url : String
  seed_artist : String
  seed_artist_name : String
deriving Repr, DecidableEq, Inhabited

/-- The mutable state of `PlaylistManager` together with its
`DatabaseManager`: the in-memory ordered playlist, the in-memory
recommendation cache, and the persistent store. -/
structure Engine where
  playlist : List Song
  recommendations : List (List Recommendation)
  db : Database
deriving Repr, DecidableEq, Inhabited

/-- The Spotify recommendation side of the engine's environment:
whether the client is configured, and the two lookup strategies
(`get_recommendations_by_album_artist`, `get_recommendations_by_track_artist`),
each taking `(track_name, artist_name)`; `none` models a raised exception. -/
structure RecEnv where
  configured : Bool
  album_recs : String → String → Option (List Recommendation)
  track_recs : String → String → Option (List Recommendation)

/-- Saved playlist files on disk: a partial map from paths to the stores
they contain. -/
abbrev SavedStores := String → Option Database

namespace PlaylistManager

/-- `PlaylistManager._song_exists_in_playlist`. -/
def song_exists_in_playlist (playlist : List Song) (artist title : String) : Bool :=
  playlist.any (fun s => s.artist == artist && s.title == title)

/-- `PlaylistManager.add_song_from_file`: reject missing files, unsupported
extensions, and `(artist, title)` collisions with a resident song;
otherwise replace-insert into the store, read and lazily initialise the
rating, and append to the in-memory playlist. -/
def add_song_from_file (fs : FS) (e : Engine) (file_path : String) :
    Option Song × Engine :=
  if (fs file_path).isNone then (none, e)
  else if !is_supported_audio_file file_path then (none, e)
  else
    let m := extract_metadata fs file_path
    if song_exists_in_playlist e.playlist m.artist m.title then (none, e)
    else
      let db1 := DatabaseManager.insert_song e.db m.title m.duration m.artist m.year file_path
      let rating := DatabaseManager.get_rating db1 m.title m.artist
      let db2 := DatabaseManager.insert_or_update_rating db1 m.title m.artist none
      let song : Song := ⟨m.title, m.artist, m.duration, m.year, file_path, 0, rating⟩
      (some song, { e with playlist := e.playlist ++ [song], db := db2 })

/-- `PlaylistManager.load_files`: the per-file pipeline over a path list,
input order preserved, rejected files silently skipped. -/
def load_files (fs : FS) (e : Engine) : List String → List Song × Engine
  | [] => ([], e)
  | p :: rest =>
    let step1 := add_song_from_file fs e p
    let step2 := load_files fs step1.2 rest
    match step1.1 with
    | some s => (s :: step2.1, step2.2)
    | none => step2

/-- `PlaylistManager.save_playlist` normalises the destination to a `.db`
suffix before copying the live store there. -/
def norm_save_path (save_path : String) : String :=
  if str_ends_with save_path ".db" then save_path else save_path ++ ".db"

/-- `PlaylistManager.save_playlist`: copy the live store file to the
(normalised) destination; the result is the updated map of saved stores. -/
def save_playlist (e : Engine) (stores : SavedStores) (save_path : String) :
    SavedStores :=
  fun q => if q = norm_save_path save_path then some e.db else stores q

/-- `PlaylistManager.load_playlist`: open the given path as a store, read
its path column, and replay it through `load_files` against the live
store.  A path holding no saved store yields no paths (the `SELECT`
fails and `get_all_playlist_paths` returns the empty list). -/
def load_playlist (fs : FS) (stores : SavedStores) (e : Engine)
    (playlist_path : String) : List Song × Engine :=
  let file_paths := match stores playlist_path with
    | some db => DatabaseManager.get_all_playlist_paths db
    | none => []
  load_files fs e file_paths

/-- `PlaylistManager.clear_playlist`: empty the in-memory playlist and
recommendation cache and the store's playlist table. -/
def clear_playlist (e : Engine) : Engine :=
  { playlist := [], recommendations := [],
    db := DatabaseManager.clear_playlist e.db }

/-- `PlaylistManager.get_song_by_index` (Python index, may be negative). -/
def get_song_by_index (e : Engine) (index : Int) : Option Song :=
  if 0 ≤ index ∧ index < (e.playlist.length : Int) then
    e.playlist[index.toNat]?
  else none

/-- `PlaylistManager.update_times_played`: guarded by the index range;
increments the store counter for the song's path and mirrors the new
count into the in-memory song. -/
def update_times_played (e : Engine) (song_index : Int) : Engine × Int :=
  if 0 ≤ song_index ∧ song_index < (e.playlist.length : Int) then
    let song := e.playlist.getD song_index.toNat default
    let res := DatabaseManager.update_times_played e.db song.path
    ({ e with
        db := res.1,
        playlist := (e.playlist.set song_index.toNat
          { song with times_played := res.2 }) },
      res.2)
  else (e, 0)

/-- `PlaylistManager.update_song_rating`: guarded by the index range;
writes through to the `rate` table and the in-memory song. -/
def update_song_rating (e : Engine) (song_index : Int) (rating : Int) : Engine :=
  if 0 ≤ song_index ∧ song_index < (e.playlist.length : Int) then
    let song := e.playlist.getD song_index.toNat default
    { e with
        db := DatabaseManager.update_rating e.db song.title song.artist rating,
        playlist := (e.playlist.set song_index.toNat { song with rating := rating }) }
  else e

/-- `PlaylistManager.filter_playlist`: narrow the in-memory list to exact
case-insensitive matches on artist or title; any other kind is a no-op;
the store is never touched (the destructive update is commented out in
the source). -/
def filter_playlist (e : Engine) (filter_type filter_value : String) : Engine :=
  if filter_type = "Artist" then
    { e with playlist := (e.playlist.filter
        (fun s => str_to_lower s.artist == str_to_lower filter_value)) }
  else if filter_type = "Title" then
    { e with playlist := (e.playlist.filter
        (fun s => str_to_lower s.title == str_to_lower filter_value)) }
  else e

/-- `PlaylistManager.remove_song`: guarded by the index range; delete the
song's path from the store and the entry from the in-memory list. -/
def remove_song (e : Engine) (song_index : Int) : Engine × Bool :=
  if 0 ≤ song_index ∧ song_index < (e.playlist.length : Int) then
    let song := e.playlist.getD song_index.toNat default
    ({ e with
        db := DatabaseManager.delete_song_by_path e.db song.path,
        playlist := e.playlist.eraseIdx song_index.toNat },
      true)
  else (e, false)

/-- `PlaylistManager.update_song_path`: guarded by the index range;
rewrite the path in the store (subject to the UNIQUE constraint) and in
the in-memory song. -/
def update_song_path (e : Engine) (song_index : Int) (new_path : String) :
    Engine × Bool :=
  if 0 ≤ song_index ∧ song_index < (e.playlist.length : Int) then
    let song := e.playlist.getD song_index.toNat default
    ({ e with
        db := DatabaseManager.update_song_path e.db song.path new_path,
        playlist := (e.playlist.set song_index.toNat { song with path := new_path }) },
      true)
  else (e, false)

/-- The cache probe of `PlaylistManager.get_recommendations`: the first
cached list any of whose entries carries the seed artist name. -/
def cached_recommendations (recs : List (List Recommendation))
    (artist_name : String) : Option (List Recommendation) :=
  recs.find? (fun rec_list => rec_list.any (fun r => r.seed_artist_name == artist_name))

/-- The outcome of `PlaylistManager.get_recommendations`: the returned
list, the updated cache, and whether each strategy was invoked. -/
structure RecResult where
  result : List Recommendation
  recommendations : List (List Recommendation)
  album_called : Bool
  track_called : Bool
deriving Repr, DecidableEq

/-- The track-scoped fallback half of `get_recommendations`: invoke the
track strategy; cache and return a non-empty result; an empty result or a
raised exception yields the empty list, uncached. -/
def track_fallback (env : RecEnv) (recs : List (List Recommendation))
    (artist_name track_name : String) : RecResult :=
  match env.track_recs track_name artist_name with
  | some l =>
    match l with
    | [] => ⟨[], recs, true, true⟩
    | _ :: _ => ⟨l, recs ++ [l], true, true⟩
  | none => ⟨[], recs, true, true⟩

/-- `PlaylistManager.get_recommendations`: unconfigured clients yield
nothing; a cached hit is returned without any strategy call; otherwise the
album strategy is tried, then the track strategy, the first non-empty
result being cached and returned. -/
def get_recommendations (env : RecEnv) (recs : List (List Recommendation))
    (artist_name track_name : String) : RecResult :=
  if !env.configured then ⟨[], recs, false, false⟩
  else
    match cached_recommendations recs artist_name with
    | some rec_list => ⟨rec_list, recs, false, false⟩
    | none =>
      match env.album_recs track_name artist_name with
      | some l =>
        match l with
        | [] => track_fallback env recs artist_name track_name
        | _ :: _ => ⟨l, recs ++ [l], true, false⟩
      | none => track_fallback env recs artist_name track_name

end PlaylistManager

/-! ## SpotifyAPI (`src/api/spotify_api.py`) -/

/-- One track of a Spotify recommendations response, as far as
`get_recommendations_by_artist` reads it. -/
structure SpotTrack where
  artist_name : String
  name : String
  preview_url : Option String
deriving Repr, DecidableEq, Inhabited

/-- A recommendation dictionary as built by
`SpotifyAPI.get_recommendations_by_artist` (before the strategy wrapper
stamps `seed_artist_name`). -/
structure SpotifyRec where
  artist : String
  title : String
  preview_url : String
  seed_artist : String
deriving Repr, DecidableEq, Inhabited

/-- Python truthiness of the `preview_url` field (`None` and the empty
string are falsy). -/
def truthy_str (s : Option String) : Bool :=
  match s with
  | some v => v != ""
  | none => false

/-- `SpotifyAPI.get_recommendations_by_artist`: no client or empty artist
id yields nothing; a raised request (`none`) is caught and yields nothing;
otherwise keep, in response order, exactly the tracks with a truthy
preview URL.  The `limit` is forwarded to the remote call and nothing
else; the code never truncates the response itself. -/
def get_recommendations_by_artist (respond : String → Nat → Option (List SpotTrack))
    (has_client : Bool) (artist_id : String) (limit : Nat := 20) : List SpotifyRec :=
  if !has_client || artist_id == "" then []
  else
    match respond artist_id limit with
    | none => []
    | some tracks =>
      (tracks.filter (fun t => truthy_str t.preview_url)).map
        (fun t => ⟨t.artist_name, t.name, t.preview_url.getD "", artist_id⟩)

/-! ## The recommendation-loading step of the UI
(`MainFrame._load_recommendations`, `src/ui/main_frame.py`) -/

/-- The observable outcome of `MainFrame._load_recommendations`: the list
handed to `_display_recommendations` (if any), the engine's recommendation
cache afterwards, and which provider strategies were invoked. -/
structure LoadRecResult where
  displayed : Option (List Recommendation)
  recommendations : List (List Recommendation)
  album_called : Bool
  track_called : Bool
deriving Repr, DecidableEq

/-- `MainFrame._load_recommendations`: skip songs with a missing artist or
title, skip (by policy) songs whose stored play count exceeds 1, and
otherwise fetch through `PlaylistManager.get_recommendations` and display
the result. -/
def load_recommendations (env : RecEnv) (e : Engine) (song : Song) : LoadRecResult :=
  if song.artist == "" || song.title == "" then
    ⟨none, e.recommendations, false, false⟩
  else if 1 < DatabaseManager.get_times_played e.db song.path then
    ⟨none, e.recommendations, false, false⟩
  else
    let r := PlaylistManager.get_recommendations env e.recommendations song.artist song.title
    ⟨some r.result, r.recommendations, r.album_called, r.track_called⟩

/-! ## Concrete fixtures used by witnesses and counterexamples -/

/-- A small file system: two tagged mp3 files sharing their tag pair. -/
def fsA : FS := fun p =>
  if p = "a.mp3" then
    some ⟨some ⟨some "ArtistA", some "TitleA", some "2001"⟩, some 61, none⟩
  else if p = "a2.mp3" then
    some ⟨some ⟨some "ArtistA", some "TitleA", some "2002"⟩, some 62, none⟩
  else none

/-- The resident song corresponding to `a.mp3` under `fsA`. -/
def witnessSong : Song := ⟨"TitleA", "ArtistA", "1:01", "2001", "a.mp3", 0, 0⟩

/-- An engine state holding exactly `witnessSong`, store in sync. -/
def witnessEngine : Engine :=
  ⟨[witnessSong], [],
    ⟨[⟨"TitleA", "1:01", "ArtistA", "2001", "a.mp3", 0⟩],
      [⟨"TitleA", "ArtistA", none⟩]⟩⟩

/-- A WAV file with no readable ID3 block but a readable duration. -/
def fsWav : FS := fun p =>
  if p = "music/track one.wav" then some ⟨none, none, some 100⟩ else none

/-- A recommendation environment whose provider lookups always raise. -/
def recEnvNone : RecEnv := ⟨true, fun _ _ => none, fun _ _ => none⟩

/-- An engine whose single song has already been played twice. -/
def enginePlayed : Engine :=
  ⟨[⟨"T", "A", "1:01", "", "p.mp3", 2, 0⟩], [],
    ⟨[⟨"T", "1:01", "A", "", "p.mp3", 2⟩], []⟩⟩

/-- A Spotify response of two tracks, both carrying preview URLs. -/
def spotRespondTwo : String → Nat → Option (List SpotTrack) :=
  fun _ _ => some [⟨"X", "x", some "u"⟩, ⟨"Y", "y", some "v"⟩]

/-! ## C1: duplicate `(artist, title)` additions are rejected -/

/-- Helper: `_song_exists_in_playlist` decides membership of the pair. -/
theorem song_exists_in_playlist_iff (l : List Song) (a t : String) :
    PlaylistManager.song_exists_in_playlist l a t = true ↔
      ∃ s ∈ l, s.artist = a ∧ s.title = t := by
  simp [PlaylistManager.song_exists_in_playlist, List.any_eq_true]

/-- C1: whenever the extracted `(artist, title)` pair of a file equals the
pair of a song already in the in-memory playlist, `add_song_from_file`
returns `None` and leaves the engine — in particular the in-memory
playlist — unchanged, regardless of the file's path. -/
theorem add_song_rejected_on_artist_title_collision (fs : FS) (e : Engine) (p : String)
    (h : ∃ s ∈ e.playlist, s.artist = (extract_metadata fs p).artist ∧
        s.title = (extract_metadata fs p).title) :
    PlaylistManager.add_song_from_file fs e p = (none, e) := by
  unfold PlaylistManager.add_song_from_file
  split
  · rfl
  · split
    · rfl
    · rw [if_pos ((song_exists_in_playlist_iff _ _ _).mpr h)]

/-- C1 witness: a second file with the same tags as the resident song is
rejected. -/
theorem add_song_rejected_on_artist_title_collision_witness :
    (∃ s ∈ witnessEngine.playlist,
        s.artist = (extract_metadata fsA "a2.mp3").artist ∧
        s.title = (extract_metadata fsA "a2.mp3").title) ∧
    PlaylistManager.add_song_from_file fsA witnessEngine "a2.mp3" =
      (none, witnessEngine) :=
  ⟨by decide,
    add_song_rejected_on_artist_title_collision fsA witnessEngine "a2.mp3" (by decide)⟩

/-! ## C6: filtering is a case-insensitive in-memory view -/

/-- C6: for the kinds `Artist` and `Title`, `filter_playlist` replaces the
in-memory playlist with exactly the order-preserving subsequence of songs
matching the value case-insensitively, and leaves the persistent store
untouched. -/
theorem filter_playlist_narrows_view_only (e : Engine) (v : String) :
    (PlaylistManager.filter_playlist e "Artist" v).playlist =
      e.playlist.filter (fun s => str_to_lower s.artist == str_to_lower v) ∧
    (PlaylistManager.filter_playlist e "Title" v).playlist =
      e.playlist.filter (fun s => str_to_lower s.title == str_to_lower v) ∧
    List.Sublist (PlaylistManager.filter_playlist e "Artist" v).playlist e.playlist ∧
    List.Sublist (PlaylistManager.filter_playlist e "Title" v).playlist e.playlist ∧
    (PlaylistManager.filter_playlist e "Artist" v).db = e.db ∧
    (PlaylistManager.filter_playlist e "Title" v).db = e.db := by
  have hta : ¬ (("Title" : String) = "Artist") := by decide
  refine ⟨?_, ?_, ?_, ?_, ?_, ?_⟩ <;>
    simp [PlaylistManager.filter_playlist, hta, List.filter_sublist]

/-! ## C7: extractor fallback on tag-parse errors -/

/-- C7 counterexample: a file whose ID3 block does not parse but whose
duration probe succeeds gets the filename fallback for title/artist/year,
yet its duration does NOT fall back to zero. -/
theorem extract_metadata_tag_error_duration_not_zero :
    (fsWav "music/track one.wav").bind FileContent.id3 = none ∧
    extract_metadata fsWav "music/track one.wav" = ⟨"track one", "", "1:40", ""⟩ ∧
    (extract_metadata fsWav "music/track one.wav").duration ≠ "0:00" := by
  decide

/-- C7 amended: on any tag-parse error the extractor returns the filename
stem as title, empty artist and year, and the duration computed by the
independent duration probe — which is `0:00` exactly when that probe
yields nothing. -/
theorem extract_metadata_tag_error_fallback (fs : FS) (path : String)
    (h : (fs path).bind FileContent.id3 = none) :
    extract_metadata fs path =
      { title := fileStem path, artist := "",
        duration := format_duration (get_duration fs path), year := "" } ∧
    (get_duration fs path = 0 → (extract_metadata fs path).duration = "0:00") := by
  unfold extract_metadata
  rw [h]
  exact ⟨rfl, fun h0 => by simp [h0, format_duration]⟩

/-- C7 witness: the fallback theorem applied to the WAV fixture. -/
theorem extract_metadata_tag_error_fallback_witness :
    (fsWav "music/track one.wav").bind FileContent.id3 = none ∧
    (extract_metadata fsWav "music/track one.wav" =
      { title := fileStem "music/track one.wav", artist := "",
        duration := format_duration (get_duration fsWav "music/track one.wav"),
        year := "" } ∧
    (get_duration fsWav "music/track one.wav" = 0 →
      (extract_metadata fsWav "music/track one.wav").duration = "0:00")) :=
  ⟨by decide, extract_metadata_tag_error_fallback fsWav "music/track one.wav" (by decide)⟩

/-! ## C8: recommendation fetches are skipped once the play count
exceeds one -/

/-- C8: when the stored play count of the selected song exceeds 1, the
recommendation-loading step invokes neither provider strategy and displays
no recommendations, leaving the cache unchanged. -/
theorem load_recommendations_skipped_when_played (env : RecEnv) (e : Engine)
    (song : Song) (h : 1 < DatabaseManager.get_times_played e.db song.path) :
    load_recommendations env e song = ⟨none, e.recommendations, false, false⟩ := by
  unfold load_recommendations
  split
  · rfl
  · rfl

/-- C8 witness: a song played twice triggers no fetch. -/
theorem load_recommendations_skipped_when_played_witness :
    1 < DatabaseManager.get_times_played enginePlayed.db "p.mp3" ∧
    load_recommendations recEnvNone enginePlayed ⟨"T", "A", "1:01", "", "p.mp3", 2, 0⟩ =
      ⟨none, enginePlayed.recommendations, false, false⟩ :=
  ⟨by decide,
    load_recommendations_skipped_when_played recEnvNone enginePlayed
      ⟨"T", "A", "1:01", "", "p.mp3", 2, 0⟩ (by decide)⟩

/-! ## C9: Spotify recommendations carry preview URLs; the length bound
is only as good as the provider response -/

/-- C9 counterexample: the code never truncates the provider response, so
a response with more tracks than the requested limit (all with preview
URLs) produces more recommendations than the limit. -/
theorem get_recommendations_by_artist_exceeds_limit :
    (get_recommendations_by_artist spotRespondTwo true "artid" 1).length = 2 ∧
    ¬ ((get_recommendations_by_artist spotRespondTwo true "artid" 1).length ≤ 1) := by
  decide

/-- C9 amended: every returned recommendation carries a non-empty preview
URL, and the result is never longer than the provider response; the limit
`N` bounds the result exactly when the provider honoured the requested
limit in its response. -/
theorem get_recommendations_by_artist_preview_and_bound
    (respond : String → Nat → Option (List SpotTrack)) (has_client : Bool)
    (artist_id : String) (limit : Nat) (tracks : List SpotTrack)
    (h : respond artist_id limit = some tracks) :
    (∀ r ∈ get_recommendations_by_artist respond has_client artist_id limit,
        r.preview_url ≠ "") ∧
    (get_recommendations_by_artist respond has_client artist_id limit).length ≤
      tracks.length ∧
    (tracks.length ≤ limit →
      (get_recommendations_by_artist respond has_client artist_id limit).length ≤ limit) := by
  have key : get_recommendations_by_artist respond has_client artist_id limit = [] ∨
      get_recommendations_by_artist respond has_client artist_id limit =
        (tracks.filter (fun t => truthy_str t.preview_url)).map
          (fun t => ⟨t.artist_name, t.name, t.preview_url.getD "", artist_id⟩) := by
    unfold get_recommendations_by_artist
    split
    · exact Or.inl rfl
    · rw [h]
      exact Or.inr rfl
  rcases key with hk | hk <;> rw [hk]
  · simp
  · refine ⟨?_, ?_, ?_⟩
    · intro r hr
      simp only [List.mem_map, List.mem_filter] at hr
      obtain ⟨t, ⟨_, ht⟩, rfl⟩ := hr
      revert ht
      unfold truthy_str
      cases t.preview_url with
      | none => simp
      | some v => simp [bne_iff_ne]
    · rw [List.length_map]
      exact List.length_filter_le _ _
    · intro hN
      rw [List.length_map]
      exact le_trans (List.length_filter_le _ _) hN

/-- C9 witness: the amended bound at a two-track response with limit 2. -/
theorem get_recommendations_by_artist_preview_and_bound_witness :
    spotRespondTwo "artid" 2 = some [⟨"X", "x", some "u"⟩, ⟨"Y", "y", some "v"⟩] ∧
    ((∀ r ∈ get_recommendations_by_artist spotRespondTwo true "artid" 2,
        r.preview_url ≠ "") ∧
    (get_recommendations_by_artist spotRespondTwo true "artid" 2).length ≤ 2 ∧
    (2 ≤ 2 →
      (get_recommendations_by_artist spotRespondTwo true "artid" 2).length ≤ 2)) :=
  ⟨rfl,
    get_recommendations_by_artist_preview_and_bound spotRespondTwo true "artid" 2
      [⟨"X", "x", some "u"⟩, ⟨"Y", "y", some "v"⟩] rfl⟩

/-! ## C10: out-of-range index operations are benign no-ops -/

/-- C10: for any index outside `[0, length)` — including negative ones —
the four index-based operations return their benign defaults and leave the
engine (in-memory playlist and persistent store alike) unchanged. -/
theorem index_ops_out_of_range_are_noops (e : Engine) (i : Int) (r : Int)
    (h : i < 0 ∨ (e.playlist.length : Int) ≤ i) :
    PlaylistManager.get_song_by_index e i = none ∧
    PlaylistManager.update_times_played e i = (e, 0) ∧
    PlaylistManager.update_song_rating e i r = e ∧
    PlaylistManager.remove_song e i = (e, false) := by
  have hcond : ¬ (0 ≤ i ∧ i < (e.playlist.length : Int)) := by omega
  unfold PlaylistManager.get_song_by_index PlaylistManager.update_times_played
    PlaylistManager.update_song_rating PlaylistManager.remove_song
  rw [if_neg hcond, if_neg hcond, if_neg hcond, if_neg hcond]
  exact ⟨rfl, rfl, rfl, rfl⟩

/-- C10 witness: index `-1` against a one-song engine. -/
theorem index_ops_out_of_range_witness :
    ((-1 : Int) < 0 ∨ (witnessEngine.playlist.length : Int) ≤ -1) ∧
    (PlaylistManager.get_song_by_index witnessEngine (-1) = none ∧
    PlaylistManager.update_times_played witnessEngine (-1) = (witnessEngine, 0) ∧
    PlaylistManager.update_song_rating witnessEngine (-1) 3 = witnessEngine ∧
    PlaylistManager.remove_song witnessEngine (-1) = (witnessEngine, false)) :=
  ⟨Or.inl (by decide),
    index_ops_out_of_range_are_noops witnessEngine (-1) 3 (Or.inl (by decide))⟩

/-! ## C3: play-count increments -/

/-- Filtering does not disturb `find?` when no sought row is removed. -/
theorem find_filter_eq {α : Type} (l : List α) (pr keep : α → Bool)
    (h : ∀ x, pr x = true → keep x = true) :
    (l.filter keep).find? pr = l.find? pr := by
  induction l with
  | nil => rfl
  | cons a t ih =>
    rw [List.filter_cons]
    by_cases hp : pr a = true
    · rw [if_pos (h a hp), List.find?_cons_of_pos _ hp, List.find?_cons_of_pos _ hp]
    · by_cases hk : keep a = true
      · rw [if_pos hk, List.find?_cons_of_neg _ hp, List.find?_cons_of_neg _ hp, ih]
      · rw [if_neg hk, List.find?_cons_of_neg _ hp, ih]

/-- Mapping commutes with `find?` when the map preserves the predicate. -/
theorem find_map_eq {α : Type} (l : List α) (pr : α → Bool) (g : α → α)
    (hpr : ∀ x, pr (g x) = pr x) :
    (l.map g).find? pr = (l.find? pr).map g := by
  induction l with
  | nil => rfl
  | cons a t ih =>
    by_cases hp : pr a = true
    · rw [List.map_cons, List.find?_cons_of_pos _ (by rw [hpr]; exact hp),
        List.find?_cons_of_pos _ hp, Option.map_some']
    · rw [List.map_cons, List.find?_cons_of_neg _ (by rw [hpr]; exact hp),
        List.find?_cons_of_neg _ hp, ih]

/-- The store-level increment bumps the row it found, in place. -/
theorem db_update_times_played_self (db : Database) (path : String)
    (h : (DatabaseManager.find_song_row db path).isSome = true) :
    (DatabaseManager.update_times_played db path).2 =
      DatabaseManager.get_times_played db path + 1 ∧
    DatabaseManager.get_times_played (DatabaseManager.update_times_played db path).1 path =
      DatabaseManager.get_times_played db path + 1 ∧
    (DatabaseManager.find_song_row
      (DatabaseManager.update_times_played db path).1 path).isSome = true := by
  obtain ⟨r, hr⟩ := Option.isSome_iff_exists.mp h
  have hr' : db.playlist.find? (fun x => x.path == path) = some r := hr
  have hrP : (r.path == path) = true :=
    @List.find?_some _ (fun x => x.path == path) r db.playlist hr'
  have hmap := find_map_eq db.playlist (fun x => x.path == path)
    (fun x => if x.path == path then { x with timesplayed := r.timesplayed + 1 } else x)
    (fun x => by by_cases hx : (x.path == path) = true <;> simp [hx])
  have hget : DatabaseManager.get_times_played db path = r.timesplayed := by
    unfold DatabaseManager.get_times_played
    rw [hr]
  unfold DatabaseManager.update_times_played
  rw [hr]
  refine ⟨by rw [hget], ?_, ?_⟩
  · unfold DatabaseManager.get_times_played DatabaseManager.find_song_row
    simp only []
    rw [hmap, hr', Option.map_some']
    simp [hrP, hget]
  · unfold DatabaseManager.find_song_row
    simp only []
    rw [hmap, hr', Option.map_some']
    rfl

/-- The store-level increment leaves every other path's counter alone. -/
theorem db_update_times_played_other (db : Database) (path q : String) (hq : q ≠ path) :
    DatabaseManager.get_times_played (DatabaseManager.update_times_played db path).1 q =
      DatabaseManager.get_times_played db q := by
  unfold DatabaseManager.update_times_played
  cases hr : DatabaseManager.find_song_row db path with
  | none => rfl
  | some r =>
    unfold DatabaseManager.get_times_played DatabaseManager.find_song_row
    have hmap := find_map_eq db.playlist (fun x => x.path == q)
      (fun x => if x.path == path then { x with timesplayed := r.timesplayed + 1 } else x)
      (fun x => by by_cases hx : (x.path == path) = true <;> simp [hx])
    simp only []
    rw [hmap]
    cases hm : db.playlist.find? (fun x => x.path == q) with
    | none => rfl
    | some m =>
      have hmq : m.path = q := by
        simpa using @List.find?_some _ (fun x => x.path == q) m db.playlist hm
      have hne : ¬ (m.path = path) := by rw [hmq]; exact hq
      simp [Option.map_some', hne]

/-- The store-level increment never touches the `rate` table. -/
theorem db_update_times_played_rate (db : Database) (path : String) :
    (DatabaseManager.update_times_played db path).1.rate = db.rate := by
  unfold DatabaseManager.update_times_played
  cases DatabaseManager.find_song_row db path <;> rfl

/-- Overwriting `times_played` with its current value is the identity. -/
theorem song_with_same_times_played (s : Song) (n : Int) (h : s.times_played = n) :
    { s with times_played := n } = s := by
  cases s
  cases h
  rfl

/-- In-range characterisation of the engine's `update_times_played`, with
the index given as a natural number. -/
theorem update_times_played_eq (e : Engine) (i : Nat) (h : i < e.playlist.length) :
    PlaylistManager.update_times_played e (i : Int) =
      ({ e with
          db := (DatabaseManager.update_times_played e.db
            (e.playlist.getD i default).path).1,
          playlist := (e.playlist.set i
            { e.playlist.getD i default with
                times_played := (DatabaseManager.update_times_played e.db
                  (e.playlist.getD i default).path).2 }) },
        (DatabaseManager.update_times_played e.db (e.playlist.getD i default).path).2) := by
  have hg : 0 ≤ (i : Int) ∧ (i : Int) < (e.playlist.length : Int) :=
    ⟨Int.ofNat_nonneg i, by exact_mod_cast h⟩
  unfold PlaylistManager.update_times_played
  rw [if_pos hg]
  rfl

/-- Reading back the element just written by `set`. -/
theorem getD_set_self {α : Type} (l : List α) (i : Nat) (v d : α)
    (h : i < l.length) : (l.set i v).getD i d = v := by
  simp [List.getD_eq_getElem?_getD, List.getElem?_set_self h]

/-- `N` successive calls of the engine's `update_times_played` at a fixed
index, keeping the value returned by the last call (`0` for `N = 0`,
matching a freshly added song). -/
def iterate_update_times_played (e : Engine) (i : Int) : Nat → Engine × Int
  | 0 => (e, 0)
  | n + 1 => PlaylistManager.update_times_played (iterate_update_times_played e i n).1 i

/-- The full inductive invariant behind C3: after `N` increment calls at
index `i` the returned count, the mirrored in-memory field and the stored
counter all equal `N`, while every other playlist entry, every other
path's counter, and the `rate` table are untouched. -/
theorem iterate_utp_invariant (e : Engine) (i : Nat) (hi : i < e.playlist.length)
    (hfresh : (e.playlist.getD i default).times_played = 0)
    (hrow : (DatabaseManager.find_song_row e.db
        (e.playlist.getD i default).path).isSome = true)
    (hcount : DatabaseManager.get_times_played e.db
        (e.playlist.getD i default).path = 0)
    (N : Nat) :
    (iterate_update_times_played e (i : Int) N).2 = (N : Int) ∧
    (iterate_update_times_played e (i : Int) N).1.playlist.length = e.playlist.length ∧
    (iterate_update_times_played e (i : Int) N).1.playlist.getD i default =
      { e.playlist.getD i default with times_played := (N : Int) } ∧
    DatabaseManager.get_times_played (iterate_update_times_played e (i : Int) N).1.db
      (e.playlist.getD i default).path = (N : Int) ∧
    (DatabaseManager.find_song_row (iterate_update_times_played e (i : Int) N).1.db
      (e.playlist.getD i default).path).isSome = true ∧
    (∀ j, j ≠ i → (iterate_update_times_played e (i : Int) N).1.playlist[j]? =
      e.playlist[j]?) ∧
    (∀ q, q ≠ (e.playlist.getD i default).path →
      DatabaseManager.get_times_played (iterate_update_times_played e (i : Int) N).1.db q =
        DatabaseManager.get_times_played e.db q) ∧
    (iterate_update_times_played e (i : Int) N).1.db.rate = e.db.rate := by
  induction N with
  | zero =>
    refine ⟨rfl, rfl, ?_, by simpa using hcount, hrow, fun j _ => rfl, fun q _ => rfl, rfl⟩
    exact (song_with_same_times_played _ _ (by exact_mod_cast hfresh)).symm
  | succ n ih =>
    obtain ⟨ih1, ih2, ih3, ih4, ih5, ih6, ih7, ih8⟩ := ih
    set en := (iterate_update_times_played e (i : Int) n).1 with hen
    have hlen : i < en.playlist.length := by rw [ih2]; exact hi
    have hpath : (en.playlist.getD i default).path =
        (e.playlist.getD i default).path := by rw [ih3]
    obtain ⟨hd1, hd2, hd3⟩ :=
      db_update_times_played_self en.db (e.playlist.getD i default).path ih5
    have hstep : iterate_update_times_played e (i : Int) (n + 1) =
        PlaylistManager.update_times_played en (i : Int) := rfl
    have hcnt : (DatabaseManager.update_times_played en.db
        (e.playlist.getD i default).path).2 = ((n + 1 : Nat) : Int) := by
      rw [hd1, ih4]; push_cast; ring
    rw [hstep, update_times_played_eq en i hlen, hpath]
    refine ⟨hcnt, ?_, ?_, ?_, hd3, ?_, ?_, ?_⟩
    · simpa using ih2
    · rw [getD_set_self _ _ _ _ hlen, ih3, hcnt]
    · rw [hd2, ih4]
      push_cast; ring
    · intro j hj
      simp only []
      rw [List.getElem?_set_ne (fun hc => hj hc.symm)]
      exact ih6 j hj
    · intro q hq
      simp only []
      rw [db_update_times_played_other en.db _ q hq]
      exact ih7 q hq
    · simp only []
      rw [db_update_times_played_rate]
      exact ih8

/-- C3: for a freshly added song (in-memory counter 0, store row present
with counter 0) at a valid index `i`, calling `update_times_played i`
`N` times returns `N` from the last call and leaves `times_played = N` in
the in-memory song and in its store row, while every other playlist entry
is unchanged and — whenever the other songs occupy other paths, as a
freshly loaded playlist guarantees — their stored counters are unchanged
too. -/
theorem update_times_played_n_times (e : Engine) (i : Nat) (N : Nat)
    (hi : i < e.playlist.length)
    (hfresh : (e.playlist.getD i default).times_played = 0)
    (hrow : (DatabaseManager.find_song_row e.db
        (e.playlist.getD i default).path).isSome = true)
    (hcount : DatabaseManager.get_times_played e.db
        (e.playlist.getD i default).path = 0)
    (hpaths : ∀ j, j < e.playlist.length → j ≠ i →
        (e.playlist.getD j default).path ≠ (e.playlist.getD i default).path) :
    (iterate_update_times_played e (i : Int) N).2 = (N : Int) ∧
    ((iterate_update_times_played e (i : Int) N).1.playlist.getD i default).times_played =
      (N : Int) ∧
    DatabaseManager.get_times_played (iterate_update_times_played e (i : Int) N).1.db
      (e.playlist.getD i default).path = (N : Int) ∧
    (∀ j, j ≠ i → (iterate_update_times_played e (i : Int) N).1.playlist[j]? =
      e.playlist[j]?) ∧
    (∀ j, j < e.playlist.length → j ≠ i →
      DatabaseManager.get_times_played (iterate_update_times_played e (i : Int) N).1.db
        (e.playlist.getD j default).path =
      DatabaseManager.get_times_played e.db (e.playlist.getD j default).path) := by
  obtain ⟨h1, _, h3, h4, _, h6, h7, _⟩ :=
    iterate_utp_invariant e i hi hfresh hrow hcount N
  exact ⟨h1, by rw [h3], h4, h6, fun j hj hne => h7 _ (hpaths j hj hne)⟩

/-- C3 witness: two increments on the singleton engine yield count 2. -/
theorem update_times_played_n_times_witness :
    (0 < witnessEngine.playlist.length ∧
      (witnessEngine.playlist.getD 0 default).times_played = 0 ∧
      (DatabaseManager.find_song_row witnessEngine.db
        (witnessEngine.playlist.getD 0 default).path).isSome = true ∧
      DatabaseManager.get_times_played witnessEngine.db
        (witnessEngine.playlist.getD 0 default).path = 0 ∧
      (∀ j, j < witnessEngine.playlist.length → j ≠ 0 →
        (witnessEngine.playlist.getD j default).path ≠
          (witnessEngine.playlist.getD 0 default).path)) ∧
    ((iterate_update_times_played witnessEngine ((0 : Nat) : Int) 2).2 = ((2 : Nat) : Int) ∧
      ((iterate_update_times_played witnessEngine ((0 : Nat) : Int) 2).1.playlist.getD 0
        default).times_played = ((2 : Nat) : Int) ∧
      DatabaseManager.get_times_played
        (iterate_update_times_played witnessEngine ((0 : Nat) : Int) 2).1.db
        (witnessEngine.playlist.getD 0 default).path = ((2 : Nat) : Int) ∧
      (∀ j, j ≠ 0 →
        (iterate_update_times_played witnessEngine ((0 : Nat) : Int) 2).1.playlist[j]? =
          witnessEngine.playlist[j]?) ∧
      (∀ j, j < witnessEngine.playlist.length → j ≠ 0 →
        DatabaseManager.get_times_played
          (iterate_update_times_played witnessEngine ((0 : Nat) : Int) 2).1.db
          (witnessEngine.playlist.getD j default).path =
        DatabaseManager.get_times_played witnessEngine.db
          (witnessEngine.playlist.getD j default).path)) :=
  ⟨⟨by decide, by decide, by decide, by decide, by decide⟩,
    update_times_played_n_times witnessEngine 0 2 (by decide) (by decide) (by decide)
      (by decide) (by decide)⟩

/-! ## C5: recommendation caching and strategy fallback -/

/-- The track-scoped fallback: a non-empty result from the track strategy
is cached and returned; an empty result or a raised lookup yields the
empty list, uncached; in either case both strategies have been invoked. -/
theorem track_fallback_spec (env : RecEnv) (recs : List (List Recommendation))
    (artist track : String) :
    (∀ l, env.track_recs track artist = some l → l ≠ [] →
      PlaylistManager.track_fallback env recs artist track = ⟨l, recs ++ [l], true, true⟩) ∧
    ((env.track_recs track artist = none ∨ env.track_recs track artist = some []) →
      PlaylistManager.track_fallback env recs artist track = ⟨[], recs, true, true⟩) := by
  constructor
  · intro l hl hne
    unfold PlaylistManager.track_fallback
    rw [hl]
    cases l with
    | nil => exact absurd rfl hne
    | cons a t => rfl
  · intro h
    unfold PlaylistManager.track_fallback
    rcases h with h | h <;> rw [h]

/-- C5: with a configured client, a cached set carrying the seed artist
name is returned as-is with no strategy invocation; with no cached set the
album strategy is queried first and a non-empty result is cached and
returned without the track strategy; when the album strategy yields
nothing (empty or raised) the track strategy decides likewise; and when
both yield nothing the result is the empty list, uncached. -/
theorem get_recommendations_cache_and_fallback (env : RecEnv)
    (recs : List (List Recommendation)) (artist track : String)
    (hconf : env.configured = true) :
    (∀ l, PlaylistManager.cached_recommendations recs artist = some l →
      PlaylistManager.get_recommendations env recs artist track =
        ⟨l, recs, false, false⟩) ∧
    (PlaylistManager.cached_recommendations recs artist = none →
      (∀ l, env.album_recs track artist = some l → l ≠ [] →
        PlaylistManager.get_recommendations env recs artist track =
          ⟨l, recs ++ [l], true, false⟩) ∧
      ((env.album_recs track artist = none ∨ env.album_recs track artist = some []) →
        (∀ l, env.track_recs track artist = some l → l ≠ [] →
          PlaylistManager.get_recommendations env recs artist track =
            ⟨l, recs ++ [l], true, true⟩) ∧
        ((env.track_recs track artist = none ∨ env.track_recs track artist = some []) →
          PlaylistManager.get_recommendations env recs artist track =
            ⟨[], recs, true, true⟩))) := by
  have hstep : PlaylistManager.get_recommendations env recs artist track =
      (match PlaylistManager.cached_recommendations recs artist with
      | some rec_list => ⟨rec_list, recs, false, false⟩
      | none =>
        match env.album_recs track artist with
        | some l =>
          match l with
          | [] => PlaylistManager.track_fallback env recs artist track
          | _ :: _ => ⟨l, recs ++ [l], true, false⟩
        | none => PlaylistManager.track_fallback env recs artist track) := by
    unfold PlaylistManager.get_recommendations
    rw [hconf]
    rfl
  constructor
  · intro l hl
    rw [hstep, hl]
  · intro hnone
    rw [hstep, hnone]
    constructor
    · intro l hal hne
      rw [hal]
      cases l with
      | nil => exact absurd rfl hne
      | cons a t => rfl
    · intro hab
      constructor
      · intro l htl hne
        rcases hab with h | h <;> rw [h] <;>
          exact (track_fallback_spec env recs artist track).1 l htl hne
      · intro htr
        rcases hab with h | h <;> rw [h] <;>
          exact (track_fallback_spec env recs artist track).2 htr

/-- A recommendation stamped with seed artist name `A`. -/
def recW : Recommendation := ⟨"RA", "RT", "url", "id", "A"⟩

/-- An environment whose album strategy returns one recommendation and
whose track strategy raises. -/
def recEnvAlbum : RecEnv := ⟨true, fun _ _ => some [recW], fun _ _ => none⟩

/-- C5 witness: the cache/fallback contract at a concrete environment,
empty cache, seed artist `A`. -/
theorem get_recommendations_cache_and_fallback_witness :
    recEnvAlbum.configured = true ∧
    ((∀ l, PlaylistManager.cached_recommendations [] "A" = some l →
      PlaylistManager.get_recommendations recEnvAlbum [] "A" "T" =
        ⟨l, [], false, false⟩) ∧
    (PlaylistManager.cached_recommendations [] "A" = none →
      (∀ l, recEnvAlbum.album_recs "T" "A" = some l → l ≠ [] →
        PlaylistManager.get_recommendations recEnvAlbum [] "A" "T" =
          ⟨l, [] ++ [l], true, false⟩) ∧
      ((recEnvAlbum.album_recs "T" "A" = none ∨
          recEnvAlbum.album_recs "T" "A" = some []) →
        (∀ l, recEnvAlbum.track_recs "T" "A" = some l → l ≠ [] →
          PlaylistManager.get_recommendations recEnvAlbum [] "A" "T" =
            ⟨l, [] ++ [l], true, true⟩) ∧
        ((recEnvAlbum.track_recs "T" "A" = none ∨
            recEnvAlbum.track_recs "T" "A" = some []) →
          PlaylistManager.get_recommendations recEnvAlbum [] "A" "T" =
            ⟨[], [], true, true⟩)))) :=
  ⟨rfl, get_recommendations_cache_and_fallback recEnvAlbum [] "A" "T" rfl⟩

/-! ## C2: save/load round trip -/

/-- The `(artist, title)` pair of an in-memory song. -/
def song_key (s : Song) : String × String := (s.artist, s.title)

/-- The `(artist, title)` pair the extractor derives for a path. -/
def extract_key (fs : FS) (p : String) : String × String :=
  ((extract_metadata fs p).artist, (extract_metadata fs p).title)

/-- `_song_exists_in_playlist` is exactly key membership. -/
theorem song_exists_eq_false_iff (l : List Song) (a t : String) :
    PlaylistManager.song_exists_in_playlist l a t = false ↔
      (a, t) ∉ l.map song_key := by
  rw [← Bool.not_eq_true, song_exists_in_playlist_iff]
  simp only [List.mem_map, song_key, Prod.mk.injEq, not_exists]

/-- The engine state after a successful add: one song appended, the
recommendation cache untouched, the store replaced. -/
def with_added (e : Engine) (s : Song) (db2 : Database) : Engine :=
  { playlist := e.playlist ++ [s], recommendations := e.recommendations, db := db2 }

/-- A successful `add_song_from_file` appends one song holding the
extracted key and the given path, touching nothing else in the playlist. -/
theorem add_song_from_file_adds (fs : FS) (e : Engine) (p : String)
    (hex : (fs p).isNone = false) (hsup : is_supported_audio_file p = true)
    (hnew : PlaylistManager.song_exists_in_playlist e.playlist
        (extract_metadata fs p).artist (extract_metadata fs p).title = false) :
    ∃ s db2, PlaylistManager.add_song_from_file fs e p =
        (some s, with_added e s db2) ∧
      s.path = p ∧ s.artist = (extract_metadata fs p).artist ∧
      s.title = (extract_metadata fs p).title := by
  unfold PlaylistManager.add_song_from_file
  simp only [hex, hsup, hnew, Bool.not_true, Bool.false_eq_true, if_false]
  exact ⟨_, _, rfl, rfl, rfl, rfl⟩

/-- Loading a list of fresh, pairwise-key-distinct, readable supported
paths appends exactly those paths, in order, to the in-memory playlist. -/
theorem load_files_appends (fs : FS) (ps : List String) : ∀ e : Engine,
    (∀ p ∈ ps, (fs p).isNone = false ∧ is_supported_audio_file p = true) →
    (∀ p ∈ ps, extract_key fs p ∉ e.playlist.map song_key) →
    (ps.map (extract_key fs)).Nodup →
    (PlaylistManager.load_files fs e ps).2.playlist.map Song.path =
      e.playlist.map Song.path ++ ps ∧
    (PlaylistManager.load_files fs e ps).2.playlist.map song_key =
      e.playlist.map song_key ++ ps.map (extract_key fs) := by
  induction ps with
  | nil =>
    intro e _ _ _
    exact ⟨by simp [PlaylistManager.load_files],
      by simp [PlaylistManager.load_files]⟩
  | cons p rest ih =>
    intro e hok hfresh hnodup
    obtain ⟨hex, hsup⟩ := hok p (List.mem_cons_self p rest)
    have hnew : PlaylistManager.song_exists_in_playlist e.playlist
        (extract_metadata fs p).artist (extract_metadata fs p).title = false := by
      rw [song_exists_eq_false_iff]
      exact hfresh p (List.mem_cons_self p rest)
    obtain ⟨s, db2, hadd, hpath, hartist, htitle⟩ :=
      add_song_from_file_adds fs e p hex hsup hnew
    have hkey : song_key s = extract_key fs p := by
      simp [song_key, extract_key, hartist, htitle]
    have hnodup2 : (extract_key fs p ∉ rest.map (extract_key fs)) ∧
        (rest.map (extract_key fs)).Nodup := by
      rw [List.map_cons] at hnodup
      exact List.nodup_cons.mp hnodup
    have hlf : PlaylistManager.load_files fs e (p :: rest) =
        (s :: (PlaylistManager.load_files fs (with_added e s db2) rest).1,
          (PlaylistManager.load_files fs (with_added e s db2) rest).2) := by
      conv_lhs => rw [PlaylistManager.load_files]
      rw [hadd]
    obtain ⟨ihp, ihk⟩ := ih (with_added e s db2)
      (fun q hq => hok q (List.mem_cons_of_mem p hq))
      (fun q hq => by
        simp only [with_added, List.map_append, List.map_cons, List.map_nil]
        intro hmem
        rcases List.mem_append.mp hmem with hm | hm
        · exact hfresh q (List.mem_cons_of_mem p hq) hm
        · have heq : extract_key fs q = extract_key fs p := by
            rw [hkey] at hm
            simpa using hm
          exact hnodup2.1 (heq ▸ List.mem_map_of_mem (extract_key fs) hq))
      hnodup2.2
    constructor
    · rw [hlf]
      show (PlaylistManager.load_files fs (with_added e s db2) rest).2.playlist.map
          Song.path = e.playlist.map Song.path ++ p :: rest
      rw [ihp]
      simp [with_added, hpath]
    · rw [hlf]
      show (PlaylistManager.load_files fs (with_added e s db2) rest).2.playlist.map
          song_key = e.playlist.map song_key ++ (p :: rest).map (extract_key fs)
      rw [ihk]
      simp [with_added, hkey]

/-- A file system for the round-trip counterexample. -/
def stores0 : SavedStores := fun _ => none

/-- The engine obtained by adding `a.mp3` to an empty engine under `fsA`. -/
def engineA : Engine :=
  (PlaylistManager.add_song_from_file fsA ⟨[], [], ⟨[], []⟩⟩ "a.mp3").2

/-- C2 counterexample: saving to a destination without the `.db` suffix
writes `mylist.db`, but `load_playlist "mylist"` opens the literal path
`mylist`, finds no playlist table there, and loads nothing — the reloaded
path set is empty rather than equal to the original. -/
theorem save_load_roundtrip_fails_without_db_suffix :
    "a.mp3" ∈ engineA.playlist.map Song.path ∧
    "a.mp3" ∉ (PlaylistManager.load_playlist fsA
        (PlaylistManager.save_playlist engineA stores0 "mylist")
        (PlaylistManager.clear_playlist engineA) "mylist").2.playlist.map Song.path := by
  decide

/-- C2 amended: for any destination that already carries the `.db` suffix
(so that `save` and `load` agree on the file), saving, clearing the
engine, and re-loading yields a playlist whose path list — hence path set —
equals the original playlist's, provided the store was in sync with the
in-memory playlist and the files on disk are unchanged (readable,
supported, and extracting the keys the resident songs carry, which are
pairwise distinct by the engine's own uniqueness invariant). -/
theorem save_load_roundtrip (fs : FS) (stores : SavedStores) (e : Engine)
    (dest : String)
    (hdest : str_ends_with dest ".db" = true)
    (hcoh : e.db.playlist.map PlaylistRow.path = e.playlist.map Song.path)
    (hok : ∀ s ∈ e.playlist, (fs s.path).isNone = false ∧
        is_supported_audio_file s.path = true)
    (hext : ∀ s ∈ e.playlist, extract_key fs s.path = song_key s)
    (hnodup : (e.playlist.map song_key).Nodup) :
    (PlaylistManager.load_playlist fs (PlaylistManager.save_playlist e stores dest)
        (PlaylistManager.clear_playlist e) dest).2.playlist.map Song.path =
      e.playlist.map Song.path := by
  have hnorm : PlaylistManager.norm_save_path dest = dest := by
    unfold PlaylistManager.norm_save_path
    rw [if_pos hdest]
  have hstores : PlaylistManager.save_playlist e stores dest dest = some e.db := by
    unfold PlaylistManager.save_playlist
    rw [if_pos hnorm.symm]
  have hload : PlaylistManager.load_playlist fs
      (PlaylistManager.save_playlist e stores dest)
      (PlaylistManager.clear_playlist e) dest =
        PlaylistManager.load_files fs (PlaylistManager.clear_playlist e)
          (e.playlist.map Song.path) := by
    unfold PlaylistManager.load_playlist
    rw [hstores]
    show PlaylistManager.load_files fs (PlaylistManager.clear_playlist e)
        (e.db.playlist.map PlaylistRow.path) =
      PlaylistManager.load_files fs (PlaylistManager.clear_playlist e)
        (e.playlist.map Song.path)
    rw [hcoh]
  have hkeys : (e.playlist.map Song.path).map (extract_key fs) =
      e.playlist.map song_key := by
    rw [List.map_map]
    exact List.map_congr_left (fun s hs => hext s hs)
  have hmain := load_files_appends fs (e.playlist.map Song.path)
    (PlaylistManager.clear_playlist e)
    (fun p hp => by
      obtain ⟨s, hs, rfl⟩ := List.mem_map.mp hp
      exact hok s hs)
    (fun p hp => by
      simp [PlaylistManager.clear_playlist])
    (by rw [hkeys]; exact hnodup)
  rw [hload, hmain.1]
  simp [PlaylistManager.clear_playlist]

/-- C2 witness: the round trip at the one-song engine, `dest = "l.db"`. -/
theorem save_load_roundtrip_witness :
    (str_ends_with "l.db" ".db" = true ∧
      engineA.db.playlist.map PlaylistRow.path = engineA.playlist.map Song.path ∧
      (∀ s ∈ engineA.playlist, (fsA s.path).isNone = false ∧
        is_supported_audio_file s.path = true) ∧
      (∀ s ∈ engineA.playlist, extract_key fsA s.path = song_key s) ∧
      (engineA.playlist.map song_key).Nodup) ∧
    (PlaylistManager.load_playlist fsA
        (PlaylistManager.save_playlist engineA stores0 "l.db")
        (PlaylistManager.clear_playlist engineA) "l.db").2.playlist.map Song.path =
      engineA.playlist.map Song.path :=
  ⟨⟨by decide, by decide, by decide, by decide, by decide⟩,
    save_load_roundtrip fsA stores0 engineA "l.db" (by decide) (by decide) (by decide)
      (by decide) (by decide)⟩

/-! ## C4: behaviour of the stored play counter across operation
sequences -/

/-- The engine operations an external caller can drive. -/
inductive Op where
  | addFile (path : String)
  | loadFilesOp (paths : List String)
  | loadPlaylistOp (path : String)
  | saveOp (dest : String)
  | removeSongOp (i : Int)
  | updateTimesPlayedOp (i : Int)
  | updateRatingOp (i : Int) (r : Int)
  | filterOp (t v : String)
  | updatePathOp (i : Int) (p : String)
  | clearOp
  | getRecsOp (artist track : String)

/-- The fixed environment a run of engine operations executes in: the
file system, the saved playlist files, and the recommendation providers. -/
structure Env where
  fs : FS
  stores : SavedStores
  rec_env : RecEnv

/-- One engine operation, as the Python methods implement it.  `saveOp`
copies the store to disk and leaves the engine state itself unchanged. -/
def step (env : Env) (e : Engine) : Op → Engine
  | .addFile p => (PlaylistManager.add_song_from_file env.fs e p).2
  | .loadFilesOp ps => (PlaylistManager.load_files env.fs e ps).2
  | .loadPlaylistOp p => (PlaylistManager.load_playlist env.fs env.stores e p).2
  | .saveOp _ => e
  | .removeSongOp i => (PlaylistManager.remove_song e i).1
  | .updateTimesPlayedOp i => (PlaylistManager.update_times_played e i).1
  | .updateRatingOp i r => PlaylistManager.update_song_rating e i r
  | .filterOp t v => PlaylistManager.filter_playlist e t v
  | .updatePathOp i p => (PlaylistManager.update_song_path e i p).1
  | .clearOp => PlaylistManager.clear_playlist e
  | .getRecsOp a t =>
      { e with recommendations :=
          (PlaylistManager.get_recommendations env.rec_env e.recommendations a t).recommendations }

/-- Run a sequence of engine operations. -/
def run_ops (env : Env) (e : Engine) : List Op → Engine
  | [] => e
  | op :: ops => run_ops env (step env e op) ops

/-- The reachable-state invariant of the engine: every resident song
carries exactly the key the extractor derives for its path, resident keys
are pairwise distinct (the engine's own uniqueness check), and stored
play counters are non-negative. -/
def EngineInv (fs : FS) (e : Engine) : Prop :=
  (∀ s ∈ e.playlist, extract_key fs s.path = song_key s) ∧
  (e.playlist.map song_key).Nodup ∧
  (∀ r ∈ e.db.playlist, 0 ≤ r.timesplayed)

/-- The restriction the amended claim places on one operation:
`update_song_path` may only rewrite a song's path to a path whose
extracted `(artist, title)` equals the song's own (the intended
moved-file recovery); every other operation is unrestricted. -/
def OkStep (fs : FS) (e : Engine) : Op → Prop
  | .updatePathOp i p =>
      (0 ≤ i ∧ i < (e.playlist.length : Int)) →
        extract_key fs p = song_key (e.playlist.getD i.toNat default)
  | _ => True

/-- `OkStep` holding at every state a run passes through. -/
def OkRun (env : Env) : Engine → List Op → Prop
  | _, [] => True
  | e, op :: ops => OkStep env.fs e op ∧ OkRun env (step env e op) ops

/-- `getD` at an in-range index is `getElem`. -/
theorem getD_eq_getElem {α : Type} [Inhabited α] (l : List α) (n : Nat)
    (h : n < l.length) : l.getD n default = l[n] := by
  simp [List.getD_eq_getElem?_getD, List.getElem?_eq_getElem h]

/-- In a duplicate-free list, overwriting position `n` with a different
value removes `l[n]` from the list. -/
theorem not_mem_set_self {α : Type} (l : List α) (n : Nat) (v : α)
    (hn : n < l.length) (hd : l.Nodup) (hv : v ≠ l[n]) : l[n] ∉ l.set n v := by
  intro hmem
  obtain ⟨m, hm, hme⟩ := List.getElem_of_mem hmem
  by_cases hmn : m = n
  · subst hmn
    rw [List.getElem_set_self] at hme
    exact hv hme
  · rw [List.getElem_set_ne (fun h => hmn h.symm)] at hme
    exact hmn (hd.getElem_inj_iff.mp hme)

/-- In a duplicate-free list, deleting position `n` removes `l[n]`. -/
theorem not_mem_eraseIdx_self {α : Type} (l : List α) (n : Nat)
    (hn : n < l.length) (hd : l.Nodup) : l[n] ∉ l.eraseIdx n := by
  intro hmem
  obtain ⟨m, hm, hme⟩ := List.getElem_of_mem hmem
  by_cases hmn : m < n
  · rw [List.getElem_eraseIdx_of_lt l n m hm hmn] at hme
    exact absurd (hd.getElem_inj_iff.mp hme) (by omega)
  · rw [List.getElem_eraseIdx_of_ge l n m hm (by omega)] at hme
    exact absurd (hd.getElem_inj_iff.mp hme) (by omega)

/-- Overwriting position `n` with a value mapping like `l[n]` leaves the
mapped list unchanged. -/
theorem map_set_same {α β : Type} (l : List α) (n : Nat) (v : α) (f : α → β)
    (hn : n < l.length) (h : f v = f (l[n])) : (l.set n v).map f = l.map f := by
  rw [List.map_set, h]
  apply List.ext_getElem
  · simp
  · intro i h1 h2
    by_cases hin : n = i
    · subst hin
      rw [List.getElem_set_self]
      exact (List.getElem_map _).symm
    · rw [List.getElem_set_ne hin]

/-- `get_times_played` only reads the `playlist` table. -/
theorem get_times_played_congr (db db' : Database) (h : db'.playlist = db.playlist)
    (q : String) :
    DatabaseManager.get_times_played db' q = DatabaseManager.get_times_played db q := by
  unfold DatabaseManager.get_times_played DatabaseManager.find_song_row
  rw [h]

/-- Replace-insert at path `p` leaves every other path's counter alone. -/
theorem db_insert_get_times_played_ne (db : Database) (t d a y p q : String)
    (hq : q ≠ p) :
    DatabaseManager.get_times_played (DatabaseManager.insert_song db t d a y p) q =
      DatabaseManager.get_times_played db q := by
  unfold DatabaseManager.get_times_played DatabaseManager.find_song_row
    DatabaseManager.insert_song
  simp only []
  rw [List.find?_append]
  have h1 : (db.playlist.filter (fun r => r.path != p)).find? (fun r => r.path == q) =
      db.playlist.find? (fun r => r.path == q) := by
    apply find_filter_eq
    intro x hx
    have hxq : x.path = q := by simpa using hx
    simp [hxq, hq]
  have h2 : (([⟨t, d, a, y, p, 0⟩] : List PlaylistRow).find?
      (fun r => r.path == q)) = none := by
    rw [List.find?_cons_of_neg _ (by simpa using fun h => hq h.symm), List.find?_nil]
  rw [h1, h2, Option.or_none]

/-- Deleting rows at path `p` leaves every other path's counter alone. -/
theorem db_delete_get_times_played_ne (db : Database) (p q : String) (hq : q ≠ p) :
    DatabaseManager.get_times_played (DatabaseManager.delete_song_by_path db p) q =
      DatabaseManager.get_times_played db q := by
  unfold DatabaseManager.get_times_played DatabaseManager.find_song_row
    DatabaseManager.delete_song_by_path
  simp only []
  rw [find_filter_eq]
  intro x hx
  have hxq : x.path = q := by simpa using hx
  simp [hxq, hq]

/-- With non-negative rows, every counter read is non-negative. -/
theorem get_times_played_nonneg (db : Database) (q : String)
    (hnn : ∀ r ∈ db.playlist, 0 ≤ r.timesplayed) :
    0 ≤ DatabaseManager.get_times_played db q := by
  unfold DatabaseManager.get_times_played DatabaseManager.find_song_row
  cases hf : db.playlist.find? (fun r => r.path == q) with
  | none => simp
  | some m => exact hnn m (List.mem_of_find?_eq_some hf)

/-- The increment never lowers the counter it targets. -/
theorem db_utp_self_ge (db : Database) (q : String) :
    DatabaseManager.get_times_played db q ≤
      DatabaseManager.get_times_played (DatabaseManager.update_times_played db q).1 q := by
  cases hf : (DatabaseManager.find_song_row db q).isSome with
  | false =>
    have hnone : DatabaseManager.find_song_row db q = none := by
      cases h : DatabaseManager.find_song_row db q
      · rfl
      · rw [h] at hf; simp at hf
    unfold DatabaseManager.update_times_played
    rw [hnone]
  | true =>
    obtain ⟨_, h2, _⟩ := db_update_times_played_self db q hf
    rw [h2]
    omega

/-- Reading counters through a row map that is the identity on the table. -/
theorem get_times_played_map_id (db : Database) (g : PlaylistRow → PlaylistRow)
    (h : db.playlist.map g = db.playlist) (q : String) :
    DatabaseManager.get_times_played { playlist := db.playlist.map g, rate := db.rate } q =
      DatabaseManager.get_times_played db q := by
  unfold DatabaseManager.get_times_played DatabaseManager.find_song_row
  simp only []
  rw [h]

/-- `update_song_path old new` can only raise the counter read at any
path other than `old` (it either renames rows, collides and does nothing,
or touches nothing). -/
theorem db_update_song_path_ge (db : Database) (old_path new_path q : String)
    (hq : q ≠ old_path) (hnn : ∀ r ∈ db.playlist, 0 ≤ r.timesplayed) :
    DatabaseManager.get_times_played db q ≤
      DatabaseManager.get_times_played
        (DatabaseManager.update_song_path db old_path new_path) q := by
  unfold DatabaseManager.update_song_path
  split
  · exact le_refl _
  · next hcond =>
    by_cases hqn : q = new_path
    · rw [hqn]
      have hne' : old_path ≠ new_path := fun h => hq (hqn.trans h.symm)
      by_cases hao : db.playlist.any (fun r => r.path == old_path) = true
      · have han : db.playlist.any (fun r => r.path == new_path) = false := by
          cases hx : db.playlist.any (fun r => r.path == new_path)
          · rfl
          · exact absurd (by simp [hao, hx, bne_iff_ne, hne']) hcond
        have hzero : DatabaseManager.get_times_played db new_path = 0 := by
          unfold DatabaseManager.get_times_played DatabaseManager.find_song_row
          cases hfm : db.playlist.find? (fun r => r.path == new_path) with
          | none => rfl
          | some m =>
            have hmem : db.playlist.any (fun r => r.path == new_path) = true :=
              List.any_eq_true.mpr ⟨m, List.mem_of_find?_eq_some hfm,
                @List.find?_some _ (fun r => r.path == new_path) m db.playlist hfm⟩
            rw [hmem] at han
            simp at han
        rw [hzero]
        apply get_times_played_nonneg
        intro r2 hr2
        obtain ⟨r, hr, rfl⟩ := List.mem_map.mp hr2
        by_cases hrp : (r.path == old_path) = true <;> simp [hrp] <;> exact hnn r hr
      · have hid : (db.playlist.map (fun r =>
            if r.path == old_path then { r with path := new_path } else r)) =
              db.playlist := by
          refine (List.map_congr_left ?_).trans (List.map_id db.playlist)
          intro x hx
          have hxn : ¬ (x.path == old_path) = true := fun hc =>
            hao (List.any_eq_true.mpr ⟨x, hx, hc⟩)
          simp [hxn]
        exact le_of_eq (get_times_played_map_id db _ hid new_path).symm
    · apply le_of_eq
      have hmap := find_map_eq db.playlist (fun x => x.path == q)
        (fun r => if r.path == old_path then { r with path := new_path } else r)
        (fun x => by
          by_cases hx : (x.path == old_path) = true
          · have hxo : x.path = old_path := by simpa using hx
            simp only [hx, if_true]
            have h1 : ¬ (new_path == q) = true := by
              simpa using fun h => hqn h.symm
            have h2 : ¬ (x.path == q) = true := by
              rw [hxo]
              simpa using fun h => hq h.symm
            simp [h1, h2]
          · simp [hx])
      unfold DatabaseManager.get_times_played DatabaseManager.find_song_row
      simp only []
      rw [hmap]
      cases hm : db.playlist.find? (fun x => x.path == q) with
      | none => rfl
      | some m =>
        have hmq : m.path = q := by
          simpa using @List.find?_some _ (fun x => x.path == q) m db.playlist hm
        have hmo : ¬ (m.path = old_path) := by
          rw [hmq]
          exact hq
        simp [Option.map_some', hmo]

/-- The explicit store a successful add leaves behind. -/
def add_db (fs : FS) (db : Database) (p : String) : Database :=
  DatabaseManager.insert_or_update_rating
    (DatabaseManager.insert_song db (extract_metadata fs p).title
      (extract_metadata fs p).duration (extract_metadata fs p).artist
      (extract_metadata fs p).year p)
    (extract_metadata fs p).title (extract_metadata fs p).artist none

/-- The explicit song a successful add appends. -/
def add_song (fs : FS) (db : Database) (p : String) : Song :=
  ⟨(extract_metadata fs p).title, (extract_metadata fs p).artist,
    (extract_metadata fs p).duration, (extract_metadata fs p).year, p, 0,
    DatabaseManager.get_rating
      (DatabaseManager.insert_song db (extract_metadata fs p).title
        (extract_metadata fs p).duration (extract_metadata fs p).artist
        (extract_metadata fs p).year p)
      (extract_metadata fs p).title (extract_metadata fs p).artist⟩

/-- A successful add, fully explicitly. -/
theorem add_success_eq (fs : FS) (e : Engine) (p : String)
    (hex : (fs p).isNone = false) (hsup : is_supported_audio_file p = true)
    (hnew : PlaylistManager.song_exists_in_playlist e.playlist
        (extract_metadata fs p).artist (extract_metadata fs p).title = false) :
    PlaylistManager.add_song_from_file fs e p =
      (some (add_song fs e.db p),
        with_added e (add_song fs e.db p) (add_db fs e.db p)) := by
  unfold PlaylistManager.add_song_from_file add_song add_db with_added
  simp only [hex, hsup, hnew, Bool.not_true, Bool.false_eq_true, if_false]

/-- `add_song_from_file` either leaves the engine alone or performs the
explicit successful add. -/
theorem add_cases (fs : FS) (e : Engine) (p : String) :
    (PlaylistManager.add_song_from_file fs e p).2 = e ∨
    ((fs p).isNone = false ∧ is_supported_audio_file p = true ∧
      PlaylistManager.song_exists_in_playlist e.playlist
        (extract_metadata fs p).artist (extract_metadata fs p).title = false ∧
      (PlaylistManager.add_song_from_file fs e p).2 =
        with_added e (add_song fs e.db p) (add_db fs e.db p)) := by
  by_cases h1 : (fs p).isNone = true
  · left
    unfold PlaylistManager.add_song_from_file
    simp [h1]
  · have h1' : (fs p).isNone = false := by
      cases hfp : (fs p).isNone
      · rfl
      · exact absurd hfp h1
    by_cases h2 : is_supported_audio_file p = true
    · by_cases h3 : PlaylistManager.song_exists_in_playlist e.playlist
          (extract_metadata fs p).artist (extract_metadata fs p).title = true
      · left
        unfold PlaylistManager.add_song_from_file
        simp [h1', h2, h3]
      · have h3' : PlaylistManager.song_exists_in_playlist e.playlist
            (extract_metadata fs p).artist (extract_metadata fs p).title = false := by
          simpa using h3
        right
        exact ⟨h1', h2, h3', by rw [add_success_eq fs e p h1' h2 h3']⟩
    · left
      have h2' : is_supported_audio_file p = false := by simpa using h2
      unfold PlaylistManager.add_song_from_file
      simp [h1', h2']

/-- Path injectivity among resident songs, from the key invariant. -/
theorem resident_path_inj (fs : FS) (e : Engine) (hinv : EngineInv fs e) :
    ∀ s ∈ e.playlist, ∀ t ∈ e.playlist, s.path = t.path → s = t := by
  intro s hs t ht hp
  apply List.inj_on_of_nodup_map hinv.2.1 hs ht
  rw [← hinv.1 s hs, ← hinv.1 t ht, hp]

/-- One add preserves the invariant, keeps every resident song resident,
and never lowers any resident song's stored counter. -/
theorem add_preserves (fs : FS) (e : Engine) (p : String) (hinv : EngineInv fs e) :
    EngineInv fs (PlaylistManager.add_song_from_file fs e p).2 ∧
    (∀ s ∈ e.playlist, s ∈ (PlaylistManager.add_song_from_file fs e p).2.playlist ∧
      DatabaseManager.get_times_played e.db s.path ≤
        DatabaseManager.get_times_played
          (PlaylistManager.add_song_from_file fs e p).2.db s.path) := by
  rcases add_cases fs e p with h | ⟨hex, hsup, hnew, h⟩
  · rw [h]
    exact ⟨hinv, fun s hs => ⟨hs, le_refl _⟩⟩
  · rw [h]
    obtain ⟨hinv1, hinv2, hinv3⟩ := hinv
    have hknot : extract_key fs p ∉ e.playlist.map song_key :=
      (song_exists_eq_false_iff _ _ _).mp hnew
    have hwa : (with_added e (add_song fs e.db p) (add_db fs e.db p)).playlist =
        e.playlist ++ [add_song fs e.db p] := rfl
    refine ⟨⟨?_, ?_, ?_⟩, ?_⟩
    · intro s hs
      rw [hwa] at hs
      rcases List.mem_append.mp hs with hs | hs
      · exact hinv1 s hs
      · have hseq : s = add_song fs e.db p := by simpa using hs
        rw [hseq]
        rfl
    · rw [hwa, List.map_append, List.map_cons, List.map_nil]
      rw [(List.perm_append_singleton _ _).nodup_iff, List.nodup_cons]
      exact ⟨hknot, hinv2⟩
    · intro r hr
      have hr' : r ∈ (DatabaseManager.insert_song e.db (extract_metadata fs p).title
          (extract_metadata fs p).duration (extract_metadata fs p).artist
          (extract_metadata fs p).year p).playlist := hr
      simp only [DatabaseManager.insert_song] at hr'
      rcases List.mem_append.mp hr' with hr2 | hr2
      · exact hinv3 r (List.mem_filter.mp hr2).1
      · have : r = ⟨(extract_metadata fs p).title, (extract_metadata fs p).duration,
            (extract_metadata fs p).artist, (extract_metadata fs p).year, p, 0⟩ := by
          simpa using hr2
        rw [this]
    · intro s hs
      constructor
      · rw [hwa]
        exact List.mem_append.mpr (Or.inl hs)
      · have hsp : s.path ≠ p := by
          intro hsp
          apply hknot
          have : extract_key fs s.path = song_key s := hinv1 s hs
          rw [← hsp, this]
          exact List.mem_map_of_mem song_key hs
        apply le_of_eq
        have h1 : DatabaseManager.get_times_played
            (with_added e (add_song fs e.db p) (add_db fs e.db p)).db s.path =
              DatabaseManager.get_times_played (DatabaseManager.insert_song e.db
                (extract_metadata fs p).title (extract_metadata fs p).duration
                (extract_metadata fs p).artist (extract_metadata fs p).year p) s.path :=
          get_times_played_congr _ _ rfl s.path
        rw [h1, db_insert_get_times_played_ne _ _ _ _ _ _ _ hsp]

/-- Stepping `load_files` over its head never changes the engine except
through the per-file add. -/
theorem load_files_cons_engine (fs : FS) (e : Engine) (p : String) (rest : List String) :
    (PlaylistManager.load_files fs e (p :: rest)).2 =
      (PlaylistManager.load_files fs (PlaylistManager.add_song_from_file fs e p).2 rest).2 := by
  conv_lhs => rw [PlaylistManager.load_files]
  rcases hadd : PlaylistManager.add_song_from_file fs e p with ⟨os, e1⟩
  cases os <;> rfl

/-- `load_files` preserves the invariant, residency and counters. -/
theorem load_files_preserves (fs : FS) (ps : List String) : ∀ e : Engine,
    EngineInv fs e →
    EngineInv fs (PlaylistManager.load_files fs e ps).2 ∧
    (∀ s ∈ e.playlist, s ∈ (PlaylistManager.load_files fs e ps).2.playlist ∧
      DatabaseManager.get_times_played e.db s.path ≤
        DatabaseManager.get_times_played
          (PlaylistManager.load_files fs e ps).2.db s.path) := by
  induction ps with
  | nil =>
    intro e hinv
    exact ⟨hinv, fun s hs => ⟨hs, le_refl _⟩⟩
  | cons p rest ih =>
    intro e hinv
    obtain ⟨hainv, hares⟩ := add_preserves fs e p hinv
    obtain ⟨hinv2, hres2⟩ := ih (PlaylistManager.add_song_from_file fs e p).2 hainv
    rw [load_files_cons_engine]
    refine ⟨hinv2, fun s hs => ?_⟩
    obtain ⟨hmem1, hle1⟩ := hares s hs
    obtain ⟨hmem2, hle2⟩ := hres2 s hmem1
    exact ⟨hmem2, le_trans hle1 hle2⟩

/-- Rows stay non-negative through the store-level increment. -/
theorem nonneg_rows_utp (db : Database) (q : String)
    (hnn : ∀ r ∈ db.playlist, 0 ≤ r.timesplayed) :
    ∀ r ∈ (DatabaseManager.update_times_played db q).1.playlist, 0 ≤ r.timesplayed := by
  unfold DatabaseManager.update_times_played
  cases hf : DatabaseManager.find_song_row db q with
  | none => exact hnn
  | some m =>
    intro r hr
    obtain ⟨x, hx, rfl⟩ := List.mem_map.mp hr
    have hm : 0 ≤ m.timesplayed := hnn m (List.mem_of_find?_eq_some hf)
    by_cases hxq : (x.path == q) = true
    · simp [hxq]
      omega
    · simp [hxq]
      exact hnn x hx

/-- Rows stay non-negative through the path rewrite. -/
theorem nonneg_rows_update_path (db : Database) (o np : String)
    (hnn : ∀ r ∈ db.playlist, 0 ≤ r.timesplayed) :
    ∀ r ∈ (DatabaseManager.update_song_path db o np).playlist, 0 ≤ r.timesplayed := by
  unfold DatabaseManager.update_song_path
  split
  · exact hnn
  · intro r hr
    obtain ⟨x, hx, rfl⟩ := List.mem_map.mp hr
    by_cases hxo : (x.path == o) = true
    · simp [hxo]
      exact hnn x hx
    · simp [hxo]
      exact hnn x hx


/-- The engine-level increment preserves the invariant and never lowers
any resident counter. -/
theorem utp_preserves (fs : FS) (e : Engine) (i : Int) (hinv : EngineInv fs e) :
    EngineInv fs (PlaylistManager.update_times_played e i).1 ∧
    (∀ s ∈ e.playlist,
      DatabaseManager.get_times_played e.db s.path ≤
        DatabaseManager.get_times_played
          (PlaylistManager.update_times_played e i).1.db s.path) := by
  unfold PlaylistManager.update_times_played
  split
  · next hrange =>
    have hn : i.toNat < e.playlist.length := by omega
    have hgd : e.playlist.getD i.toNat default = e.playlist[i.toNat] :=
      getD_eq_getElem _ _ hn
    have hmemi : e.playlist.getD i.toNat default ∈ e.playlist := by
      rw [hgd]; exact List.getElem_mem hn
    constructor
    · refine ⟨?_, ?_, ?_⟩
      · intro s hs
        rcases List.mem_or_eq_of_mem_set hs with hs | rfl
        · exact hinv.1 s hs
        · exact hinv.1 (e.playlist.getD i.toNat default) hmemi
      · have hks : song_key { e.playlist.getD i.toNat default with
            times_played := (DatabaseManager.update_times_played e.db
              (e.playlist.getD i.toNat default).path).2 } =
              song_key (e.playlist[i.toNat]) := by
          rw [← hgd]
          rfl
        rw [map_set_same _ _ _ _ hn hks]
        exact hinv.2.1
      · exact nonneg_rows_utp e.db _ hinv.2.2
    · intro s hs
      by_cases hsp : s.path = (e.playlist.getD i.toNat default).path
      · rw [hsp]
        exact db_utp_self_ge e.db _
      · exact le_of_eq (db_update_times_played_other e.db _ s.path hsp).symm
  · exact ⟨hinv, fun s hs => le_refl _⟩

/-- The rating update never touches the `playlist` table or any key. -/
theorem rating_preserves (fs : FS) (e : Engine) (i : Int) (r : Int)
    (hinv : EngineInv fs e) :
    EngineInv fs (PlaylistManager.update_song_rating e i r) ∧
    (PlaylistManager.update_song_rating e i r).db.playlist = e.db.playlist := by
  unfold PlaylistManager.update_song_rating
  split
  · next hrange =>
    have hn : i.toNat < e.playlist.length := by omega
    have hgd : e.playlist.getD i.toNat default = e.playlist[i.toNat] :=
      getD_eq_getElem _ _ hn
    have hmemi : e.playlist.getD i.toNat default ∈ e.playlist := by
      rw [hgd]; exact List.getElem_mem hn
    refine ⟨⟨?_, ?_, ?_⟩, rfl⟩
    · intro s hs
      rcases List.mem_or_eq_of_mem_set hs with hs | rfl
      · exact hinv.1 s hs
      · exact hinv.1 (e.playlist.getD i.toNat default) hmemi
    · have hks : song_key { e.playlist.getD i.toNat default with rating := r } =
          song_key (e.playlist[i.toNat]) := by
        rw [← hgd]
        rfl
      rw [map_set_same _ _ _ _ hn hks]
      exact hinv.2.1
    · exact hinv.2.2
  · exact ⟨hinv, rfl⟩

/-- Filtering narrows the in-memory view and never touches the store. -/
theorem filter_preserves (fs : FS) (e : Engine) (t v : String)
    (hinv : EngineInv fs e) :
    EngineInv fs (PlaylistManager.filter_playlist e t v) ∧
    (PlaylistManager.filter_playlist e t v).db = e.db := by
  have hsub : List.Sublist (PlaylistManager.filter_playlist e t v).playlist
      e.playlist ∧ (PlaylistManager.filter_playlist e t v).db = e.db := by
    unfold PlaylistManager.filter_playlist
    split
    · exact ⟨List.filter_sublist _, rfl⟩
    · split
      · exact ⟨List.filter_sublist _, rfl⟩
      · exact ⟨List.Sublist.refl _, rfl⟩
  refine ⟨⟨?_, ?_, ?_⟩, hsub.2⟩
  · intro s hs
    exact hinv.1 s (hsub.1.subset hs)
  · exact List.Nodup.sublist (hsub.1.map song_key) hinv.2.1
  · rw [hsub.2]
    exact hinv.2.2

/-- Renaming a path onto itself is the identity on the store. -/
theorem update_song_path_self (db : Database) (o : String) :
    DatabaseManager.update_song_path db o o = db := by
  unfold DatabaseManager.update_song_path
  split
  · next hcond =>
    exfalso
    simp [bne_self_eq_false] at hcond
  · have hid : db.playlist.map
        (fun r => if r.path == o then { r with path := o } else r) = db.playlist := by
      refine (List.map_congr_left ?_).trans (List.map_id _)
      intro x hx
      by_cases hxo : (x.path == o) = true
      · have hxp : x.path = o := by simpa using hxo
        cases x
        simp_all
      · simp [hxo]
    rw [hid]

/-- A song with path `q` is resident in the engine. -/
def path_resident (e : Engine) (q : String) : Prop :=
  ∃ s ∈ e.playlist, s.path = q

/-- `remove_song` preserves the invariant; a path that stays resident is
never the removed one, so its counter is untouched. -/
theorem remove_preserves (fs : FS) (e : Engine) (i : Int) (hinv : EngineInv fs e) :
    EngineInv fs (PlaylistManager.remove_song e i).1 ∧
    (∀ q : String, path_resident e q →
      path_resident (PlaylistManager.remove_song e i).1 q →
      DatabaseManager.get_times_played e.db q ≤
        DatabaseManager.get_times_played (PlaylistManager.remove_song e i).1.db q) := by
  unfold PlaylistManager.remove_song
  split
  · next hrange =>
    have hn : i.toNat < e.playlist.length := by omega
    have hgd : e.playlist.getD i.toNat default = e.playlist[i.toNat] :=
      getD_eq_getElem _ _ hn
    constructor
    · refine ⟨?_, ?_, ?_⟩
      · intro s hs
        exact hinv.1 s ((List.eraseIdx_sublist _ _).subset hs)
      · exact List.Nodup.sublist
          (List.Sublist.map song_key (List.eraseIdx_sublist _ _)) hinv.2.1
      · intro r hr
        have hr' : r ∈ e.db.playlist := by
          simp only [DatabaseManager.delete_song_by_path] at hr
          exact (List.mem_filter.mp hr).1
        exact hinv.2.2 r hr'
    · rintro q - ⟨s2, hmem, hq2⟩
      have hnodupl : e.playlist.Nodup := List.Nodup.of_map song_key hinv.2.1
      have hsne : s2 ≠ e.playlist[i.toNat] := by
        intro hcontra
        rw [hcontra] at hmem
        exact not_mem_eraseIdx_self _ _ hn hnodupl hmem
      have hs2l : s2 ∈ e.playlist := (List.eraseIdx_sublist _ _).subset hmem
      have hpne : q ≠ (e.playlist.getD i.toNat default).path := by
        rw [hgd, ← hq2]
        intro hp
        exact hsne (resident_path_inj fs e hinv s2 hs2l _ (List.getElem_mem hn) hp)
      exact le_of_eq (db_delete_get_times_played_ne e.db _ q hpne).symm
  · exact ⟨hinv, fun q h1 h2 => le_refl _⟩

/-- In-range characterisation of the engine's `update_song_path`. -/
theorem update_song_path_eq (e : Engine) (i : Int) (p : String)
    (h : 0 ≤ i ∧ i < (e.playlist.length : Int)) :
    PlaylistManager.update_song_path e i p =
      ({ e with
          db := DatabaseManager.update_song_path e.db
            (e.playlist.getD i.toNat default).path p,
          playlist := (e.playlist.set i.toNat
            { e.playlist.getD i.toNat default with path := p }) },
        true) := by
  unfold PlaylistManager.update_song_path
  rw [if_pos h]

/-- The path rewrite, restricted to replacement paths carrying the song's
own key (the moved-file recovery discipline), preserves the invariant and
never lowers the counter of any path that stays resident. -/
theorem update_path_preserves (fs : FS) (e : Engine) (i : Int) (p : String)
    (hinv : EngineInv fs e)
    (hok : (0 ≤ i ∧ i < (e.playlist.length : Int)) →
      extract_key fs p = song_key (e.playlist.getD i.toNat default)) :
    EngineInv fs (PlaylistManager.update_song_path e i p).1 ∧
    (∀ q : String, path_resident e q →
      path_resident (PlaylistManager.update_song_path e i p).1 q →
      DatabaseManager.get_times_played e.db q ≤
        DatabaseManager.get_times_played
          (PlaylistManager.update_song_path e i p).1.db q) := by
  by_cases hrange : 0 ≤ i ∧ i < (e.playlist.length : Int)
  · rw [update_song_path_eq e i p hrange]
    have hn : i.toNat < e.playlist.length := by omega
    have hgd : e.playlist.getD i.toNat default = e.playlist[i.toNat] :=
      getD_eq_getElem _ _ hn
    have hmemi : e.playlist.getD i.toNat default ∈ e.playlist := by
      rw [hgd]; exact List.getElem_mem hn
    have hokk := hok hrange
    constructor
    · refine ⟨?_, ?_, ?_⟩
      · intro s hs
        rcases List.mem_or_eq_of_mem_set hs with hs | rfl
        · exact hinv.1 s hs
        · show extract_key fs p =
            song_key { e.playlist.getD i.toNat default with path := p }
          rw [hokk]
          rfl
      · have hks : song_key { e.playlist.getD i.toNat default with path := p } =
            song_key (e.playlist[i.toNat]) := by
          rw [← hgd]
          rfl
        rw [map_set_same _ _ _ _ hn hks]
        exact hinv.2.1
      · exact nonneg_rows_update_path e.db _ _ hinv.2.2
    · rintro q - ⟨s2, hmem, hq2⟩
      by_cases hqo : q = (e.playlist.getD i.toNat default).path
      · -- the tracked path is the rename source: it stays resident only
        -- when the replacement path is itself the old path
        have hmem2 : s2 ∈ e.playlist.set i.toNat
            { e.playlist.getD i.toNat default with path := p } := hmem
        have hpold : p = (e.playlist.getD i.toNat default).path := by
          rcases List.mem_or_eq_of_mem_set hmem2 with hs2l | rfl
          · -- a song other than the modified one carries the old path
            have hs2i : s2 = e.playlist.getD i.toNat default :=
              resident_path_inj fs e hinv s2 hs2l _ hmemi (by rw [hq2, hqo])
            by_contra hne
            have hvne : ({ e.playlist[i.toNat] with path := p } : Song) ≠
                e.playlist[i.toNat] := by
              intro hc
              apply hne
              have hc2 := congrArg Song.path hc
              rw [hgd]
              simpa using hc2
            rw [hs2i, hgd] at hmem2
            exact not_mem_set_self e.playlist i.toNat _ hn
              (List.Nodup.of_map song_key hinv.2.1) hvne hmem2
          · -- the modified song itself still carries path q = old
            have hpq : p = q := hq2
            rw [hpq]
            exact hqo
        rw [hqo, hpold, update_song_path_self]
      · exact db_update_song_path_ge e.db _ p q hqo hinv.2.2
  · have hnoop : PlaylistManager.update_song_path e i p = (e, false) := by
      unfold PlaylistManager.update_song_path
      rw [if_neg hrange]
    rw [hnoop]
    exact ⟨hinv, fun q h1 h2 => le_refl _⟩

/-- One restricted engine operation preserves the invariant and never
lowers the stored counter of a path that stays resident across it. -/
theorem step_preserves (env : Env) (e : Engine) (op : Op)
    (hinv : EngineInv env.fs e) (hok : OkStep env.fs e op) :
    EngineInv env.fs (step env e op) ∧
    (∀ q : String, path_resident e q → path_resident (step env e op) q →
      DatabaseManager.get_times_played e.db q ≤
        DatabaseManager.get_times_played (step env e op).db q) := by
  cases op with
  | addFile p =>
    obtain ⟨h1, h2⟩ := add_preserves env.fs e p hinv
    refine ⟨h1, ?_⟩
    rintro q ⟨s, hs, rfl⟩ -
    exact (h2 s hs).2
  | loadFilesOp ps =>
    obtain ⟨h1, h2⟩ := load_files_preserves env.fs ps e hinv
    refine ⟨h1, ?_⟩
    rintro q ⟨s, hs, rfl⟩ -
    exact (h2 s hs).2
  | loadPlaylistOp p =>
    obtain ⟨h1, h2⟩ := load_files_preserves env.fs
      (match env.stores p with
        | some db => DatabaseManager.get_all_playlist_paths db
        | none => []) e hinv
    refine ⟨h1, ?_⟩
    rintro q ⟨s, hs, rfl⟩ -
    exact (h2 s hs).2
  | saveOp d => exact ⟨hinv, fun q h1 h2 => le_refl _⟩
  | removeSongOp i => exact remove_preserves env.fs e i hinv
  | updateTimesPlayedOp i =>
    obtain ⟨h1, h2⟩ := utp_preserves env.fs e i hinv
    refine ⟨h1, ?_⟩
    rintro q ⟨s, hs, rfl⟩ -
    exact h2 s hs
  | updateRatingOp i r =>
    obtain ⟨h1, h2⟩ := rating_preserves env.fs e i r hinv
    exact ⟨h1, fun q hq1 hq2 =>
      le_of_eq (get_times_played_congr e.db _ h2 q).symm⟩
  | filterOp t v =>
    obtain ⟨h1, h2⟩ := filter_preserves env.fs e t v hinv
    refine ⟨h1, fun q hq1 hq2 => le_of_eq ?_⟩
    show DatabaseManager.get_times_played e.db q =
      DatabaseManager.get_times_played (PlaylistManager.filter_playlist e t v).db q
    rw [h2]
  | updatePathOp i p => exact update_path_preserves env.fs e i p hinv hok
  | clearOp =>
    refine ⟨⟨?_, ?_, ?_⟩, ?_⟩
    · intro s hs
      exact absurd hs (List.not_mem_nil s)
    · exact List.nodup_nil
    · intro r hr
      exact absurd hr (List.not_mem_nil r)
    · rintro q h1 ⟨s, hmem, -⟩
      exact absurd hmem (List.not_mem_nil s)
  | getRecsOp a t => exact ⟨hinv, fun q h1 h2 => le_refl _⟩

/-- A path `q` keeps a resident song at every state the run passes
through. -/
def ResidentThrough (env : Env) (q : String) : Engine → List Op → Prop
  | _, [] => True
  | e, op :: ops =>
      path_resident (step env e op) q ∧ ResidentThrough env q (step env e op) ops

/-- C4 amended: across every sequence of engine operations in which
`update_song_path` is only used with a replacement path whose extracted
`(artist, title)` equals the song's own — the intended moved-file recovery
discipline — the stored `times_played` counter of any song that stays in
the in-memory playlist throughout (tracked by its path, the durable
identity key) is monotonically non-decreasing, from any state satisfying
the engine's reachable-state invariant. -/
theorem times_played_monotone_along_ok_runs (env : Env) (ops : List Op) :
    ∀ (e : Engine) (q : String), EngineInv env.fs e → OkRun env e ops →
      path_resident e q → ResidentThrough env q e ops →
      DatabaseManager.get_times_played e.db q ≤
        DatabaseManager.get_times_played (run_ops env e ops).db q := by
  induction ops with
  | nil =>
    intro e q _ _ _ _
    exact le_refl _
  | cons op ops ih =>
    intro e q hinv hok hq hres
    have hok' : OkStep env.fs e op ∧ OkRun env (step env e op) ops := hok
    have hres' : path_resident (step env e op) q ∧
        ResidentThrough env q (step env e op) ops := hres
    obtain ⟨h1, h2⟩ := step_preserves env e op hinv hok'.1
    exact le_trans (h2 q hq hres'.1)
      (ih (step env e op) q h1 hok'.2 hres'.1 hres'.2)

/-- Two files with different tags, used by the C4 counterexample. -/
def fs4 : FS := fun p =>
  if p = "p.mp3" then some ⟨some ⟨some "A", some "T", none⟩, some 60, none⟩
  else if p = "q.mp3" then some ⟨some ⟨some "B", some "U", none⟩, some 60, none⟩
  else none

/-- The environment of the C4 counterexample. -/
def env4 : Env := ⟨fs4, fun _ => none, recEnvNone⟩

/-- The empty engine. -/
def engine0 : Engine := ⟨[], [], ⟨[], []⟩⟩

/-- The counterexample prefix: add `p.mp3`, play it once, then rewrite its
path to `q.mp3` (a different file that happens to bear other tags). -/
def ops4 : List Op :=
  [Op.addFile "p.mp3", Op.updateTimesPlayedOp 0, Op.updatePathOp 0 "q.mp3"]

/-- The engine after the counterexample prefix. -/
def engineB : Engine := run_ops env4 engine0 ops4

/-- The engine after one more operation: adding the file `q.mp3`. -/
def engineC : Engine := run_ops env4 engine0 (ops4 ++ [Op.addFile "q.mp3"])

/-- The song resident at index 0 after the prefix. -/
def songB : Song := engineB.playlist.getD 0 default

/-- C4 counterexample: along the concrete engine-operation sequence
<add p.mp3; update_times_played 0; update_song_path 0 q.mp3; add q.mp3>
the song at index 0 stays in the in-memory playlist across the last
operation (the same record, hence also the same path), yet its stored
play counter drops from 1 to 0: the final add re-inserts the path
`q.mp3`, whose extracted tags differ from the resident song's, and the
REPLACE semantics reset the row's counter. -/
theorem stored_count_reset_while_resident :
    engineC = step env4 engineB (Op.addFile "q.mp3") ∧
    songB ∈ engineB.playlist ∧ songB ∈ engineC.playlist ∧
    DatabaseManager.get_times_played engineB.db songB.path = 1 ∧
    DatabaseManager.get_times_played engineC.db songB.path = 0 := by
  decide

/-- The environment of the C4 witness (the C2 fixtures). -/
def envA : Env := ⟨fsA, fun _ => none, recEnvNone⟩

/-- C4 witness: the monotonicity theorem applied to the one-song engine
and the single operation `update_times_played 0` on the tracked path. -/
theorem times_played_monotone_witness :
    (EngineInv envA.fs engineA ∧
      OkRun envA engineA [Op.updateTimesPlayedOp 0] ∧
      path_resident engineA "a.mp3" ∧
      ResidentThrough envA "a.mp3" engineA [Op.updateTimesPlayedOp 0]) ∧
    DatabaseManager.get_times_played engineA.db "a.mp3" ≤
      DatabaseManager.get_times_played
        (run_ops envA engineA [Op.updateTimesPlayedOp 0]).db "a.mp3" := by
  have hInv : EngineInv envA.fs engineA := by
    refine ⟨by decide, by decide, by decide⟩
  have hRun : OkRun envA engineA [Op.updateTimesPlayedOp 0] := ⟨trivial, trivial⟩
  have hMem : path_resident engineA "a.mp3" := by
    unfold path_resident
    decide
  have hRes : ResidentThrough envA "a.mp3" engineA [Op.updateTimesPlayedOp 0] :=
    ⟨by unfold path_resident; decide, trivial⟩
  exact ⟨⟨hInv, hRun, hMem, hRes⟩,
    times_played_monotone_along_ok_runs envA [Op.updateTimesPlayedOp 0] engineA
      "a.mp3" hInv hRun hMem hRes⟩

end SMF
